import Mathlib

/-!
# fmippn post-processing: motion-compensated interpolation, accumulation and ensemble mean

Shallow embedding of `postprocess/src/thread_member_interp_ensmean.c`.

Conventions of the embedding.

* C arrays are total functions on `ℕ` (or on tuples of indices); an in-place store is
  `Function.update`.  Reads are only ever stated for indices inside the allocated range.
* `double` values are rationals (`ℚ`); the cast `(int32_t)x` is truncation toward zero
  (`truncZ`).  In the ensemble mean and in the deterministic weight schedule every `double`
  operation is rounded to binary64, round to nearest with ties to even (`fl`, `fadd`, `fsub`,
  `fmul`, `fdiv`), each operation on its own (no fused multiply-add); values beyond the
  largest finite `double` are outside the model.  In the trajectory builder, in the
  construction of the accumulation tables and in the latch of the flag `DETERM_W`
  (`determStep`), whose statements do not depend on the rounding, the `double` operations
  are exact.
* `int32_t` values are integers (`ℤ`); signed overflow is undefined behaviour in C and is
  outside the model.  `uint16_t` stores of a `double` are reduced modulo `2^16`.
* `for (i = 0; i < n; i++)` is a left fold over `List.range n` (`forRange`); the row-major
  pixel loop `for(Y..) for(X..)` is `forPixels`.
* The quantities obtained from `pow`/`log10` (the rain-rate accumulation of a code) and from
  the HDF5 attributes are parameters.
-/

namespace Fmippn

/-! ## Basic building blocks -/

/-- C conversion `(int32_t)x` of a `double`: the fractional part is discarded. -/
def truncZ (q : ℚ) : ℤ := if 0 ≤ q then ⌊q⌋ else ⌈q⌉

/-- C conversion `(uint16_t)x` of a `double`. -/
def toUInt16 (q : ℚ) : ℕ := (truncZ q % 65536).toNat

/-- Rounding of a rational to the nearest integer, ties to the even one. -/
def roundHalfEven (m : ℚ) : ℤ :=
  let f := ⌊m⌋
  let r := m - f
  if r < 1 / 2 then f else if 1 / 2 < r then f + 1 else if f % 2 = 0 then f else f + 1

/-- Number of halvings that bring `n` below 2, at most `fuel` of them: the binary logarithm
of `n ≥ 1`, rounded down, when `n < 2^fuel`. -/
def log2Fuel : ℕ → ℕ → ℕ
  | 0, _ => 0
  | fuel + 1, n => if n < 2 then 0 else log2Fuel fuel (n / 2) + 1

/-- Binary exponent of the positive rational `a/b`: the binary logarithm rounded down. -/
def ilog2 (a b : ℕ) : ℤ :=
  let e0 : ℤ := (log2Fuel a a : ℤ) - (log2Fuel b b : ℤ)
  if (2 : ℚ) ^ e0 ≤ (a : ℚ) / (b : ℚ) then e0 else e0 - 1

/-- Rounding of a real value to `double` (IEEE 754 binary64, round to nearest, ties to even):
the value is rounded to a multiple of `2^q`, where `q` is the exponent of the value less
the 52 fraction bits, and not below the exponent `-1074` of the subnormal numbers. -/
def fl (x : ℚ) : ℚ :=
  if x = 0 then 0 else
    let e := ilog2 x.num.natAbs x.den
    let q := max (e - 52) (-1074)
    (roundHalfEven (x / (2 : ℚ) ^ q) : ℚ) * (2 : ℚ) ^ q

/-- The `double` sum `x + y`. -/
def fadd (x y : ℚ) : ℚ := fl (x + y)

/-- The `double` difference `x - y`. -/
def fsub (x y : ℚ) : ℚ := fl (x - y)

/-- The `double` product `x * y`. -/
def fmul (x y : ℚ) : ℚ := fl (x * y)

/-- The `double` quotient `x / y`. -/
def fdiv (x y : ℚ) : ℚ := fl (x / y)

/-- Loop `for (i = 0; i < n; i++) s = body(s, i)`. -/
def forRange {σ : Type} (n : ℕ) (body : σ → ℕ → σ) (s : σ) : σ :=
  (List.range n).foldl body s

/-- Loop `for (i = a; i < b; i++) s = body(s, i)`. -/
def forFromTo {σ : Type} (a b : ℕ) (body : σ → ℕ → σ) (s : σ) : σ :=
  (List.range' a (b - a)).foldl body s

/-- Row-major pixel loop `for(Y=0;Y<ysize;Y++) for(X=0;X<xsize;X++) s = body(s, X, Y)`. -/
def forPixels {σ : Type} (xsize ysize : ℕ) (body : σ → ℕ → ℕ → σ) (s : σ) : σ :=
  forRange ysize (fun s Y => forRange xsize (fun s X => body s X Y) s) s

/-! ## Accumulation tables (`main`, "ACCUMULATION LUT") -/

/-- Construction of `AccFromZI` (lines 277-302).  `IR zN0` is the value
`(int32_t)(R*Rscaler)` computed for code `zN0`; `maxN` is the top code, `newNodata = maxN+1`
and `ZIveclen = newNodata+1`.  The array is `calloc`ed, entries `1 .. ZIveclen-1` are filled
in the loop, and finally `AccFromZI[maxN] = -1`. -/
def buildAccFromZI (IR : ℕ → ℤ) (maxN : ℕ) : ℕ → ℤ :=
  let ZIveclen := maxN + 1 + 1
  let A := forRange ZIveclen
    (fun (A : ℕ → ℤ) zN0 => if zN0 ≠ 0 then Function.update A zN0 (IR zN0) else A)
    (fun _ => 0)
  Function.update A maxN (-1)

/-- Body of the innermost loop of the interpolation table (lines 313-321) for the code pair
`(zN0, zN1)` and slot `X` (`X1 = X+1`, `rX = intlen-1-X`). -/
def interpSlot (A : ℕ → ℤ) (intsteps intlen zN0 zN1 : ℕ)
    (T : ℕ × ℕ × ℕ → ℤ) (X : ℕ) : ℕ × ℕ × ℕ → ℤ :=
  let Acc0 := A zN0
  let Acc1 := A zN1
  let k : ℚ := ((Acc1 - Acc0 : ℤ) : ℚ) / (intsteps : ℚ)
  let X1 := X + 1
  let rX := intlen - 1 - X
  if zN0 = zN1 then Function.update T (zN0, zN0, X) Acc0
  else
    let Acc := truncZ ((Acc0 : ℚ) + k * (X1 : ℚ))
    Function.update (Function.update T (zN1, zN0, rX) Acc) (zN0, zN1, X) Acc

/-- Loop "Linear interpolation of two timestep-accumulation over interp steps"
(lines 306-323): `for(zN0=1;..) for(zN1=zN0;..) for(X=0;X<intlen;..)`. -/
def interpLoop (A : ℕ → ℤ) (intsteps ZIveclen : ℕ) (T : ℕ × ℕ × ℕ → ℤ) : ℕ × ℕ × ℕ → ℤ :=
  let intlen := intsteps - 1
  forFromTo 1 ZIveclen (fun T zN0 =>
    forFromTo zN0 ZIveclen (fun T zN1 =>
      forRange intlen (interpSlot A intsteps intlen zN0 zN1) T) T) T

/-- Loop "Either value nodata" (lines 326-327).  The chained assignment stores
`AccAverLUT[zN][newNodata][X]` first and `AccAverLUT[newNodata][zN][X]` second. -/
def nodataLoop (intsteps newNodata ZIveclen : ℕ) (T : ℕ × ℕ × ℕ → ℤ) : ℕ × ℕ × ℕ → ℤ :=
  let intlen := intsteps - 1
  forRange ZIveclen (fun T zN =>
    forRange intlen (fun T X =>
      Function.update (Function.update T (zN, newNodata, X) (-1)) (newNodata, zN, X) (-1)) T) T

/-- Construction of `AccAverLUT` from `AccFromZI` (lines 290-328); the slots are `calloc`ed. -/
def buildAccAverLUT (A : ℕ → ℤ) (maxN intsteps : ℕ) : ℕ × ℕ × ℕ → ℤ :=
  let newNodata := maxN + 1
  let ZIveclen := newNodata + 1
  nodataLoop intsteps newNodata ZIveclen (interpLoop A intsteps ZIveclen (fun _ => 0))

/-! ## Trajectory tables (`trajecLUT_thread`) -/

/-- Buffers that `trajecLUT_thread` reads and writes for its motion field `mI`:
`MotionData[mI]` (plane `dx` at `N`, plane `dy` at `N + fieldsize`), `OneStepMotion[mI]`
and `trajecLUT[tI][mI][wI][N]`, keyed by `(tI, wI, N)` with `PAST = 0`, `FUTU = 1`. -/
structure TrajState where
  MoData : ℕ → ℚ
  OneStepMotion : ℕ → ℤ
  trajecLUT : ℕ × ℕ × ℕ → ℤ

/-- The grid test of lines 570-573 and 604-607: the pixel `(iX, iY)` is outside the area. -/
def offGrid (xsize ysize : ℕ) (iX iY : ℤ) : Prop :=
  iX ≥ xsize ∨ iX < 0 ∨ iY ≥ ysize ∨ iY < 0

instance (xsize ysize : ℕ) (iX iY : ℤ) : Decidable (offGrid xsize ysize iX iY) := by
  unfold offGrid; exact inferInstance

/-- The source index of lines 570-574 and 604-608: `-1` outside the area, else the flat
index `iY*xsize + iX`. -/
def srcIndex (xsize ysize : ℕ) (iX iY : ℤ) : ℤ :=
  if offGrid xsize ysize iX iY then -1 else iY * xsize + iX

/-- Body of the first pixel loop (lines 563-580): the one-step backward source index from the
motion vector as it stands in the buffer, then the in-place scaling of that vector. -/
def oneStepPixel (xsize ysize : ℕ) (vecscaler : ℚ) (s : TrajState) (X Y : ℕ) : TrajState :=
  let fieldsize := xsize * ysize
  let N := Y * xsize + X
  let Nv := N + fieldsize
  let oX := truncZ ((X : ℚ) + 1 / 2 - s.MoData N)
  let oY := truncZ ((Y : ℚ) + 1 / 2 - s.MoData Nv)
  let oN := srcIndex xsize ysize oX oY
  let Mo1 := Function.update s.MoData N (s.MoData N * vecscaler)
  let Mo2 := Function.update Mo1 Nv (Mo1 Nv * vecscaler)
  { MoData := Mo2, OneStepMotion := Function.update s.OneStepMotion N oN,
    trajecLUT := s.trajecLUT }

/-- Loop state of one destination pixel in the second pixel loop: the running displacements
`dX[tI]`, `dY[tI]` and the table. -/
structure PixState where
  dX : ℕ → ℚ
  dY : ℕ → ℚ
  trajecLUT : ℕ × ℕ × ℕ → ℤ

/-- Body of the direction loop (lines 598-621) for destination pixel `N = (X, Y)`,
integration substep `iI` and direction `tI` (`sig = -1` for `PAST`, `+1` for `FUTU`). -/
def trajDirStep (xsize ysize intlen : ℕ) (Mo : ℕ → ℚ) (X Y iI : ℕ)
    (s : PixState) (tI : ℕ) : PixState :=
  let fieldsize := xsize * ysize
  let N := Y * xsize + X
  let sig : ℚ := if tI = 0 then -1 else 1
  let wIT := if tI = 0 then iI else intlen - iI - 1
  let iX := truncZ ((X : ℚ) + 1 / 2 + sig * s.dX tI)
  let iY := truncZ ((Y : ℚ) + 1 / 2 + sig * s.dY tI)
  let iN := srcIndex xsize ysize iX iY
  let motN : ℕ := if offGrid xsize ysize iX iY then N else (iY * xsize + iX).toNat
  { dX := Function.update s.dX tI (s.dX tI + Mo motN),
    dY := Function.update s.dY tI (s.dY tI + Mo (motN + fieldsize)),
    trajecLUT := Function.update s.trajecLUT (tI, wIT, N) iN }

/-- Body of the second pixel loop (lines 584-624): both trajectories of destination pixel
`(X, Y)` over the `intlen` integration substeps. -/
def trajPixel (xsize ysize intlen : ℕ) (Mo : ℕ → ℚ) (T : ℕ × ℕ × ℕ → ℤ) (X Y : ℕ) :
    ℕ × ℕ × ℕ → ℤ :=
  let fieldsize := xsize * ysize
  let N := Y * xsize + X
  let s0 : PixState :=
    { dX := fun _ => Mo N, dY := fun _ => Mo (N + fieldsize), trajecLUT := T }
  (forRange intlen (fun s iI =>
    forRange 2 (trajDirStep xsize ysize intlen Mo X Y iI) s) s0).trajecLUT

/-- The thread function `trajecLUT_thread` (lines 551-627) on the buffers `s` of its motion
field, with `vecscaler = 1/intsteps` and `intlen = intsteps-1`. -/
def trajecLUT_thread (xsize ysize intsteps : ℕ) (s : TrajState) : TrajState :=
  let vecscaler : ℚ := 1 / (intsteps : ℚ)
  let intlen := intsteps - 1
  let s1 := forPixels xsize ysize (oneStepPixel xsize ysize vecscaler) s
  { s1 with
    trajecLUT := forPixels xsize ysize (trajPixel xsize ysize intlen s1.MoData) s1.trajecLUT }

/-- Buffers as `main` hands them to the thread: the motion field read from the file, the
`calloc`ed trajectory tables, and the one-step array. -/
def trajInit (Mo : ℕ → ℚ) : TrajState :=
  { MoData := Mo, OneStepMotion := fun _ => 0, trajecLUT := fun _ => 0 }

/-! ## Member interpolation (`interpolation_thread`) -/

/-- Read-only inputs of one run of `interpolation_thread` for member `mI`. -/
structure SweepEnv where
  xsize : ℕ
  ysize : ℕ
  intsteps : ℕ
  newNodata : ℕ
  AccFromZI : ℕ → ℤ
  AccAverLUT : ℕ × ℕ × ℕ → ℤ
  trajecLUT : ℕ × ℕ × ℕ → ℤ
  OneStepMotion : ℕ → ℤ
  pastZI : ℕ → ℕ

/-- Buffers of member `mI` that `interpolation_thread` writes: `Accdata[mI]` and the future
field `futuZIarrPtr[mI]`. -/
structure SweepState where
  Accdata : ℕ → ℤ
  futuZI : ℕ → ℕ

/-- The value `Acc` of substep `iI` at pixel `N` (lines 665-687), with `wI = iI-1`;
`pastN` is `N` at `iI = 0` and `trajecLUT[PAST][mI][wI][N]` afterwards. -/
def substepAcc (e : SweepEnv) (futuZI : ℕ → ℕ) (N iI : ℕ) : ℤ :=
  let wI := iI - 1
  let pastN : ℤ := if iI = 0 then (N : ℤ) else e.trajecLUT (0, wI, N)
  if 0 ≤ pastN then
    let pastZI := e.pastZI pastN.toNat
    let pastAcc := e.AccFromZI pastZI
    if iI ≠ 0 then
      let futuN := e.trajecLUT (1, wI, N)
      if 0 ≤ futuN then e.AccAverLUT (pastZI, futuZI futuN.toNat, wI) else -1
    else pastAcc
  else -1

/-- One pass of the substep loop (lines 663-701): line 691,
`if(Acc>=0) Accdata[mI][N]+=Acc; else Accdata[mI][N]=-1;`. -/
def substepStore (e : SweepEnv) (futuZI : ℕ → ℕ) (N : ℕ) (A : ℕ → ℤ) (iI : ℕ) : ℕ → ℤ :=
  let Acc := substepAcc e futuZI N iI
  if 0 ≤ Acc then Function.update A N (A N + Acc) else Function.update A N (-1)

/-- Body of the pixel loop (lines 659-706): the substep loop, then the nodata advection. -/
def sweepPixel (e : SweepEnv) (s : SweepState) (X Y : ℕ) : SweepState :=
  let N := Y * e.xsize + X
  let A := forRange e.intsteps (substepStore e s.futuZI N) s.Accdata
  let offN := e.OneStepMotion N
  { Accdata := A,
    futuZI := if offN < 0 ∨ e.pastZI offN.toNat = e.newNodata
              then Function.update s.futuZI N e.newNodata else s.futuZI }

/-- The core of `interpolation_thread` (lines 658-706); the diagnostic rasters do not feed
back into `Accdata` or the fields and are left out. -/
def interpolation_thread (e : SweepEnv) (s : SweepState) : SweepState :=
  forPixels e.xsize e.ysize (sweepPixel e) s

/-! ## Ensemble mean (`main`, lines 441-445 and 491-520) -/

/-- Globals read by the ensemble mean of one step. -/
structure EnsCfg where
  members : ℕ
  DETERM_ENSMEAN : Bool
  DETERM_W : Bool
  determ_w : ℚ
  Ensmean_nodata : ℕ

/-- Body of the member loop (lines 500-518) at pixel `N`; the state is
`(MeanAccsum, MeanCount)`.  `MembAcc = (double)Accdata[mI][N]` is exact (an `int32_t`),
the products and sums are `double` operations. -/
def meanMember (c : EnsCfg) (Accdata : ℕ → ℕ → ℤ) (N : ℕ) (s : ℚ × ℚ) (mI : ℕ) : ℚ × ℚ :=
  let MembAcc : ℚ := (Accdata mI N : ℚ)
  if 0 ≤ MembAcc then
    if c.DETERM_ENSMEAN = true ∧ mI = 0 then
      if c.DETERM_W = true
      then (fadd s.1 (fmul MembAcc c.determ_w), fadd s.2 c.determ_w) else s
    else (fadd s.1 MembAcc, fadd s.2 1)
  else s

/-- The pair `(MeanAccsum, MeanCount)` at pixel `N` when the member loop ends. -/
def meanSums (c : EnsCfg) (Accdata : ℕ → ℕ → ℤ) (N : ℕ) : ℚ × ℚ :=
  forRange c.members (meanMember c Accdata N) (0, 0)

/-- Body of the pixel loop of the ensemble mean (lines 496-520); line 519 is
`(uint16_t)(0.001*MeanAccsum/MeanCount)`, the product and the quotient in `double`. -/
def meanPixel (c : EnsCfg) (xsize : ℕ) (Accdata : ℕ → ℕ → ℤ) (M : ℕ → ℕ) (X Y : ℕ) : ℕ → ℕ :=
  let N := Y * xsize + X
  let r := meanSums c Accdata N
  if 0 < r.2 then Function.update M N (toUInt16 (fdiv (fmul (fl (1 / 1000)) r.1) r.2)) else M

/-- The ensemble mean of one step as it stands in `MeanAccdata` after the pixel loop and
before the byte swap for the PGM output: `memset` every byte of the first `fieldsize`
elements to `Ensmean_nodata`, then the pixel loop. -/
def ensembleMean (c : EnsCfg) (xsize ysize : ℕ) (Accdata : ℕ → ℕ → ℤ) (M : ℕ → ℕ) : ℕ → ℕ :=
  forPixels xsize ysize (meanPixel c xsize Accdata)
    (fun N => if N < xsize * ysize then 256 * c.Ensmean_nodata + c.Ensmean_nodata else M N)

/-- The globals `DETERM_W` and `determ_w`. -/
structure DetermState where
  DETERM_W : Bool
  determ_w : ℚ

/-- Lines 441-445 at the head of time step `tI`. -/
def determStep (DETERM_ENSMEAN : Bool) (determ_startw determ_lapse : ℚ)
    (s : DetermState) (tI : ℕ) : DetermState :=
  if DETERM_ENSMEAN = true then
    let w := determ_startw - determ_lapse * (tI : ℚ)
    { DETERM_W := if w < 0 then false else s.DETERM_W, determ_w := w }
  else s

/-- The globals `DETERM_W`, `determ_w` when the ensemble mean of time step `tI` runs: the
initial values (`DETERM_W = 1`, `determ_w = 0`) passed through the heads of steps `0 .. tI`. -/
def determAt (DETERM_ENSMEAN : Bool) (determ_startw determ_lapse : ℚ) (tI : ℕ) : DetermState :=
  forRange (tI + 1) (determStep DETERM_ENSMEAN determ_startw determ_lapse)
    { DETERM_W := true, determ_w := 0 }

/-- The configuration of the ensemble mean at time step `tI` of a run. -/
def ensCfgAt (members : ℕ) (DETERM_ENSMEAN : Bool) (determ_startw determ_lapse : ℚ)
    (Ensmean_nodata : ℕ) (tI : ℕ) : EnsCfg :=
  let d := determAt DETERM_ENSMEAN determ_startw determ_lapse tI
  { members := members, DETERM_ENSMEAN := DETERM_ENSMEAN, DETERM_W := d.DETERM_W,
    determ_w := d.determ_w, Ensmean_nodata := Ensmean_nodata }

/-! ## Quantities used in the statements: accumulation tables -/

/-- The value the interpolation loop computes for the code pair `(zN0, zN1)` at slot `X`:
`(int32_t)(Acc0 + k*X1)` with `k = (Acc1-Acc0)/intsteps`, `X1 = X+1`. -/
def interpVal (A : ℕ → ℤ) (intsteps zN0 zN1 X : ℕ) : ℤ :=
  truncZ ((A zN0 : ℚ) + ((A zN1 - A zN0 : ℤ) : ℚ) / (intsteps : ℚ) * ((X + 1 : ℕ) : ℚ))

/-- `WritesAt F c o`: the sequence of stores `F` leaves cell `c` as it was (`o = none`) or
leaves the value `v` in it (`o = some v`), whatever the table it starts from. -/
def WritesAt {κ : Type} (F : (κ → ℤ) → κ → ℤ) (c : κ) (o : Option ℤ) : Prop :=
  ∀ T, F T c = o.getD (T c)

/-- What the slot loop of the code pair `(zN0, zN1)` stores into cell `(c0, c1, k)`. -/
def pairStores (A : ℕ → ℤ) (s il zN0 zN1 c0 c1 k : ℕ) : Option ℤ :=
  if k < il ∧ zN0 = zN1 ∧ c0 = zN0 ∧ c1 = zN0 then some (A zN0)
  else if k < il ∧ zN0 ≠ zN1 ∧ c0 = zN0 ∧ c1 = zN1 then some (interpVal A s zN0 zN1 k)
  else if k < il ∧ zN0 ≠ zN1 ∧ c0 = zN1 ∧ c1 = zN0 then
    some (interpVal A s zN0 zN1 (il - 1 - k))
  else none

/-- What the `zN1` loop of code `zN0` stores into cell `(c0, c1, k)`. -/
def rowStores (A : ℕ → ℤ) (s il L zN0 c0 c1 k : ℕ) : Option ℤ :=
  if k < il ∧ c0 = zN0 ∧ c1 = zN0 ∧ zN0 < L then some (A zN0)
  else if k < il ∧ c0 = zN0 ∧ zN0 < c1 ∧ c1 < L then some (interpVal A s zN0 c1 k)
  else if k < il ∧ c1 = zN0 ∧ zN0 < c0 ∧ c0 < L then some (interpVal A s zN0 c0 (il - 1 - k))
  else none

/-- The entry of the interpolation loop for codes `c0, c1 ≥ 1` at slot `k`. -/
def interpEntry (A : ℕ → ℤ) (s il c0 c1 k : ℕ) : ℤ :=
  if c0 = c1 then A c0
  else if c0 < c1 then interpVal A s c0 c1 k
  else interpVal A s c1 c0 (il - 1 - k)

/-- What the whole interpolation loop stores into cell `(c0, c1, k)`. -/
def interpStores (A : ℕ → ℤ) (s il L c0 c1 k : ℕ) : Option ℤ :=
  if k < il ∧ 1 ≤ c0 ∧ 1 ≤ c1 ∧ c0 < L ∧ c1 < L then some (interpEntry A s il c0 c1 k)
  else none

/-- What the nodata loop stores into cell `(c0, c1, k)`. -/
def nodataStores (il nn L c0 c1 k : ℕ) : Option ℤ :=
  if k < il ∧ ((c0 < L ∧ c1 = nn) ∨ (c0 = nn ∧ c1 < L)) then some (-1) else none

/-! ## Quantities used in the statements: trajectories -/

/-- Sign of the motion field along a trajectory: `-1` for `PAST` (`tI = 0`), `+1` for
`FUTU`. -/
def dirSign (tI : ℕ) : ℚ := if tI = 0 then -1 else 1

/-- The trajectory increment of lines 604-617 for destination pixel `(X, Y)`: from the running
displacement `d = (dX[tI], dY[tI])` to the next one. -/
def dispNext (xsize ysize : ℕ) (Mo : ℕ → ℚ) (X Y : ℕ) (sig : ℚ) (d : ℚ × ℚ) : ℚ × ℚ :=
  let iX := truncZ ((X : ℚ) + 1 / 2 + sig * d.1)
  let iY := truncZ ((Y : ℚ) + 1 / 2 + sig * d.2)
  let motN : ℕ := if offGrid xsize ysize iX iY then Y * xsize + X else (iY * xsize + iX).toNat
  (d.1 + Mo motN, d.2 + Mo (motN + xsize * ysize))

/-- The running displacement `(dX[tI], dY[tI])` of destination pixel `(X, Y)` on entering
integration substep `k`. -/
def trajDisp (xsize ysize : ℕ) (Mo : ℕ → ℚ) (X Y tI : ℕ) : ℕ → ℚ × ℚ
  | 0 => (Mo (Y * xsize + X), Mo (Y * xsize + X + xsize * ysize))
  | k + 1 => dispNext xsize ysize Mo X Y (dirSign tI) (trajDisp xsize ysize Mo X Y tI k)

/-- The position computed at integration substep `k`: pixel centre plus the signed
accumulated displacement. -/
def trajPos (xsize ysize : ℕ) (Mo : ℕ → ℚ) (X Y tI k : ℕ) : ℚ × ℚ :=
  ((X : ℚ) + 1 / 2 + dirSign tI * (trajDisp xsize ysize Mo X Y tI k).1,
   (Y : ℚ) + 1 / 2 + dirSign tI * (trajDisp xsize ysize Mo X Y tI k).2)

/-- The source index `iN` computed at integration substep `k`. -/
def trajIdx (xsize ysize : ℕ) (Mo : ℕ → ℚ) (X Y tI k : ℕ) : ℤ :=
  srcIndex xsize ysize (truncZ (trajPos xsize ysize Mo X Y tI k).1)
    (truncZ (trajPos xsize ysize Mo X Y tI k).2)

/-- The table slot `wI[tI]` of integration substep `k`: `k` for `PAST`, `intlen-k-1` for
`FUTU`. -/
def trajSlot (intlen tI k : ℕ) : ℕ := if tI = 0 then k else intlen - k - 1

/-- The motion field as the second pixel loop of `trajecLUT_thread` reads it: the buffer
after the first pixel loop has scaled it in place. -/
def scaledMotion (xsize ysize intsteps : ℕ) (s : TrajState) : ℕ → ℚ :=
  (forPixels xsize ysize (oneStepPixel xsize ysize (1 / (intsteps : ℚ))) s).MoData

/-- State of the integration loop of destination pixel `(X, Y)` on entering substep `iI`,
started on the table `T0`. -/
def PixInv (xsize ysize intlen : ℕ) (Mo : ℕ → ℚ) (T0 : ℕ × ℕ × ℕ → ℤ) (X Y iI : ℕ)
    (s : PixState) : Prop :=
  (∀ tI, tI < 2 → s.dX tI = (trajDisp xsize ysize Mo X Y tI iI).1 ∧
    s.dY tI = (trajDisp xsize ysize Mo X Y tI iI).2) ∧
  (∀ tI k, tI < 2 → k < iI →
    s.trajecLUT (tI, trajSlot intlen tI k, Y * xsize + X) = trajIdx xsize ysize Mo X Y tI k) ∧
  (∀ key : ℕ × ℕ × ℕ, key.2.2 ≠ Y * xsize + X → s.trajecLUT key = T0 key)

/-- State of the trajectory table after the destination pixels with flat index below `n`. -/
def TrajInv (xsize ysize intlen : ℕ) (Mo : ℕ → ℚ) (T0 : ℕ × ℕ × ℕ → ℤ) (n : ℕ)
    (T : ℕ × ℕ × ℕ → ℤ) : Prop :=
  (∀ X Y tI k, X < xsize → Y < ysize → Y * xsize + X < n → tI < 2 → k < intlen →
    T (tI, trajSlot intlen tI k, Y * xsize + X) = trajIdx xsize ysize Mo X Y tI k) ∧
  (∀ key : ℕ × ℕ × ℕ, n ≤ key.2.2 → T key = T0 key)

/-- The trajectory of destination pixel `(X, Y)` is off the grid at integration substep `k`
beyond an edge across which the pixel's own scaled motion vector, signed by the direction,
does not point back: right edge and `sig*vx ≥ 0`, left edge and `sig*vx ≤ 0`, bottom edge
and `sig*vy ≥ 0`, or top edge and `sig*vy ≤ 0`. -/
def LeavesForGood (xsize ysize : ℕ) (Mo : ℕ → ℚ) (X Y tI k : ℕ) : Prop :=
  let p := trajPos xsize ysize Mo X Y tI k
  let vx := dirSign tI * Mo (Y * xsize + X)
  let vy := dirSign tI * Mo (Y * xsize + X + xsize * ysize)
  (truncZ p.1 ≥ xsize ∧ 0 ≤ vx) ∨ (truncZ p.1 < 0 ∧ vx ≤ 0) ∨
  (truncZ p.2 ≥ ysize ∧ 0 ≤ vy) ∨ (truncZ p.2 < 0 ∧ vy ≤ 0)

instance (xsize ysize : ℕ) (Mo : ℕ → ℚ) (X Y tI k : ℕ) :
    Decidable (LeavesForGood xsize ysize Mo X Y tI k) := by
  unfold LeavesForGood; exact inferInstance

/-! ## Quantities used in the statements: interpolation sweep -/

/-- The test of line 705 at pixel `N`: its one-step motion index is invalid, or the past
field holds the nodata code at that one-step source pixel. -/
def advectsNodata (e : SweepEnv) (N : ℕ) : Prop :=
  e.OneStepMotion N < 0 ∨ e.pastZI (e.OneStepMotion N).toNat = e.newNodata

instance (e : SweepEnv) (N : ℕ) : Decidable (advectsNodata e N) := by
  unfold advectsNodata; exact inferInstance

/-- The future field as the sweep finds it on arriving at pixel `N`: the field `futu0` given to
the sweep, with the nodata marks already written for the pixels visited before `N`. -/
def futuSeen (e : SweepEnv) (futu0 : ℕ → ℕ) (N : ℕ) : ℕ → ℕ :=
  fun M => if M < N ∧ advectsNodata e M then e.newNodata else futu0 M

/-- The value of `Accdata[mI][N]` after the first `n` substeps, started from the value `a`,
when the substeps read the future field `f`. -/
def pixelAcc (e : SweepEnv) (f : ℕ → ℕ) (N n : ℕ) (a : ℤ) : ℤ :=
  forRange n (fun a iI => if 0 ≤ substepAcc e f N iI then a + substepAcc e f N iI else -1) a

/-- Sum of the contributions of the first `n` substeps at pixel `N`. -/
def substepSum (e : SweepEnv) (f : ℕ → ℕ) (N n : ℕ) : ℤ :=
  ((List.range n).map (substepAcc e f N)).sum

/-- State of the sweep after the pixels with flat index below `n`. -/
def SweepInv (e : SweepEnv) (s0 : SweepState) (n : ℕ) (s : SweepState) : Prop :=
  (∀ M, s.futuZI M = futuSeen e s0.futuZI n M) ∧
  (∀ M, s.Accdata M =
    if M < n then pixelAcc e (futuSeen e s0.futuZI M) M e.intsteps (s0.Accdata M)
    else s0.Accdata M)

/-! ## Quantities used in the statements: ensemble mean -/

/-- Weight of member `mI` in the ensemble mean: every ordinary member has weight 1, the
deterministic member (member 0, under deterministic weighting) has weight `determ_w`. -/
def memberWeight (c : EnsCfg) (mI : ℕ) : ℚ :=
  if c.DETERM_ENSMEAN = true ∧ mI = 0 then c.determ_w else 1

/-- Weighted sum of the members' non-nodata (`≥ 0`) accumulations at pixel `N`, in the words
of the claim, in exact arithmetic. -/
def claimWeightedSum (c : EnsCfg) (Accdata : ℕ → ℕ → ℤ) (N : ℕ) : ℚ :=
  ((List.range c.members).map
    (fun mI => if 0 ≤ Accdata mI N then memberWeight c mI * (Accdata mI N : ℚ) else 0)).sum

/-- Weighted count of the members with a non-nodata accumulation at pixel `N`, in the words
of the claim, in exact arithmetic. -/
def claimWeightedCount (c : EnsCfg) (Accdata : ℕ → ℕ → ℤ) (N : ℕ) : ℚ :=
  ((List.range c.members).map
    (fun mI => if 0 ≤ Accdata mI N then memberWeight c mI else 0)).sum

/-- Member `mI` takes part in the mean at pixel `N`: its accumulation is not nodata, and it is
not the deterministic member with the weighting flag `DETERM_W` off. -/
def takesPart (c : EnsCfg) (Accdata : ℕ → ℕ → ℤ) (N mI : ℕ) : Bool :=
  decide (0 ≤ Accdata mI N) &&
    !(c.DETERM_ENSMEAN && decide (mI = 0) && !c.DETERM_W)

/-- Weighted accumulation of member `mI` at pixel `N`: the accumulation itself for an
ordinary member, the `double` product with `determ_w` for the deterministic member. -/
def memberTerm (c : EnsCfg) (Accdata : ℕ → ℕ → ℤ) (N mI : ℕ) : ℚ :=
  if c.DETERM_ENSMEAN = true ∧ mI = 0 then fmul (Accdata mI N : ℚ) c.determ_w
  else (Accdata mI N : ℚ)

/-- Weighted sum and weighted count at pixel `N` in `double` arithmetic: the weighted
accumulations and the weights of the members that take part, added up in member order. -/
def doubleSums (c : EnsCfg) (Accdata : ℕ → ℕ → ℤ) (N : ℕ) : ℚ × ℚ :=
  ((List.range c.members).filter (takesPart c Accdata N)).foldl
    (fun s mI => (fadd s.1 (memberTerm c Accdata N mI), fadd s.2 (memberWeight c mI))) (0, 0)

/-- The value of `MeanAccdata[N]` after the pixel loop, when `fill` is what `memset` left. -/
def meanValue (c : EnsCfg) (Accdata : ℕ → ℕ → ℤ) (fill N : ℕ) : ℕ :=
  if 0 < (meanSums c Accdata N).2
  then toUInt16 (fdiv (fmul (fl (1 / 1000)) (meanSums c Accdata N).1) (meanSums c Accdata N).2)
  else fill

/-! ## Concrete runs used as test inputs -/

/-- Rain-rate accumulations of a small code scale: code `z` gives `100*z`. -/
def exIR : ℕ → ℤ := fun z => 100 * (z : ℤ)

/-- Tables of a run with top code `maxN = 3` (nodata code 4) and `intsteps` substeps. -/
def exAccFromZI : ℕ → ℤ := buildAccFromZI exIR 3

/-- Motion field of a 3x1 grid: every pixel moves 2 pixels to the right per nowcast step
(`dx = 2`, `dy = 0`). -/
def exMotionRight : ℕ → ℚ := fun N => if N < 3 then 2 else 0

/-- Trajectory tables of `exMotionRight` on the 3x1 grid with 4 substeps. -/
def exTrajRight : TrajState := trajecLUT_thread 3 1 4 (trajInit exMotionRight)

/-- Sweep on the 3x1 grid, 4 substeps, motion `exMotionRight`, past field uniformly code 1. -/
def exEnvRight : SweepEnv :=
  { xsize := 3, ysize := 1, intsteps := 4, newNodata := 4,
    AccFromZI := exAccFromZI, AccAverLUT := buildAccAverLUT exAccFromZI 3 4,
    trajecLUT := exTrajRight.trajecLUT, OneStepMotion := exTrajRight.OneStepMotion,
    pastZI := fun _ => 1 }

/-- Buffers at the first step: `Accdata` as `calloc` leaves it, future field uniformly code 1. -/
def exState0 : SweepState := { Accdata := fun _ => 0, futuZI := fun _ => 1 }

/-- Trajectory tables of the zero motion field on the 1x1 grid with 2 substeps. -/
def exTrajZero : TrajState := trajecLUT_thread 1 1 2 (trajInit (fun _ => 0))

/-- Sweep on the 1x1 grid, 2 substeps, zero motion, with past field `past`. -/
def exEnvZero (past : ℕ → ℕ) : SweepEnv :=
  { xsize := 1, ysize := 1, intsteps := 2, newNodata := 4,
    AccFromZI := exAccFromZI, AccAverLUT := buildAccAverLUT exAccFromZI 3 2,
    trajecLUT := exTrajZero.trajecLUT, OneStepMotion := exTrajZero.OneStepMotion,
    pastZI := past }

/-- Buffers after the first step of the zero-motion run (observation uniformly code 1,
first nowcast field uniformly code 1). -/
def exZeroStep1 : SweepState := interpolation_thread (exEnvZero (fun _ => 1)) exState0

/-- Second step of the zero-motion run: the future field of the first step is now the past
field, the newly read future field is again uniformly code 1, `Accdata` is the same buffer. -/
def exEnvZero2 : SweepEnv := exEnvZero exZeroStep1.futuZI

/-- Buffers handed to the second step of the zero-motion run. -/
def exZeroState2 : SweepState := { Accdata := exZeroStep1.Accdata, futuZI := fun _ => 1 }

/-- Motion field of a 2x1 grid whose pixel 0 moves 1.5 pixels right per nowcast step
(`dx = [3/2, 0]`, `dy = [0, 0]`). -/
def exMotionEdge : ℕ → ℚ := fun N => if N = 0 then 3 / 2 else 0

/-- Ensemble of three members on a 1x1 grid, the deterministic member 0 with weight 2:
accumulations `300000`, `-1` (nodata) and `600000` (unit 1/100000 mm). -/
def exEnsCfg : EnsCfg :=
  { members := 3, DETERM_ENSMEAN := true, DETERM_W := true, determ_w := 2,
    Ensmean_nodata := 255 }

/-- Member accumulations of `exEnsCfg`. -/
def exEnsAcc : ℕ → ℕ → ℤ := fun mI _ => if mI = 0 then 300000 else if mI = 1 then -1 else 600000

/-- One member on a 1x1 grid under `INTERP_IGNORE_NODATA=TRUE` (`Ensmean_nodata = 0`). -/
def exIgnoreCfg : EnsCfg :=
  { members := 1, DETERM_ENSMEAN := false, DETERM_W := true, determ_w := 0,
    Ensmean_nodata := 0 }

/-! ## Deterministic weight schedule (`main`, lines 162-172 and 443) -/

/-- Line 167: `determ_startw = 0.01*determ_initweight * (double)members` in `double`
arithmetic, where `members` counts all members, the deterministic one included (line 131);
`0.01` is the `double` nearest to 1/100. -/
def determ_startw (determ_initweight : ℚ) (members : ℕ) : ℚ :=
  fmul (fmul (fl (1 / 100)) determ_initweight) (members : ℚ)

/-- Lines 168-169: `determ_lapse` is `0` for a non-positive weighting span and
`100.0*determ_startw/(determ_weightspan*(double)timesteps)` in `double` arithmetic
otherwise. -/
def determ_lapse (determ_initweight determ_weightspan : ℚ) (members timesteps : ℕ) : ℚ :=
  if determ_weightspan ≤ 0 then 0
  else fdiv (fmul 100 (determ_startw determ_initweight members))
    (fmul determ_weightspan (timesteps : ℚ))

/-- Line 443: the weight `determ_w = determ_startw - determ_lapse * (double)tI` computed in
`double` arithmetic at the head of time step `tI`. -/
def determ_w (determ_initweight determ_weightspan : ℚ) (members timesteps tI : ℕ) : ℚ :=
  fsub (determ_startw determ_initweight members)
    (fmul (determ_lapse determ_initweight determ_weightspan members timesteps) (tI : ℚ))

/-- The pointers `pastZIarrPtr[mI]` and `futuZIarrPtr[mI]` of one member, as the fields they
point to. -/
structure FieldPtrs where
  pastZIarrPtr : ℕ → ℕ
  futuZIarrPtr : ℕ → ℕ

/-- Lines 487-489 at the end of time step `tI`: the future field becomes the past field; the
old past buffer becomes the future buffer, except after step 0, where the past was the
shared observation and the member's own `pastZIarr` buffer is taken. -/
def swapFields (tI : ℕ) (pastZIarr : ℕ → ℕ) (p : FieldPtrs) : FieldPtrs :=
  { pastZIarrPtr := p.futuZIarrPtr,
    futuZIarrPtr := if tI ≠ 0 then p.pastZIarrPtr else pastZIarr }

/-! ## Quantities used in the statements: one-step motion index and snapshot sweep -/

/-- The one-step source index of pixel `(X, Y)` computed from the motion field `Mo`
(lines 567-574). -/
def oneStepIdx (xsize ysize : ℕ) (Mo : ℕ → ℚ) (X Y : ℕ) : ℤ :=
  srcIndex xsize ysize (truncZ ((X : ℚ) + 1 / 2 - Mo (Y * xsize + X)))
    (truncZ ((Y : ℚ) + 1 / 2 - Mo (Y * xsize + X + xsize * ysize)))

/-- State of the first pixel loop of `trajecLUT_thread` after the pixels with flat index
below `n`, started on the buffers `s0`. -/
def OneStepInv (xsize ysize : ℕ) (v : ℚ) (s0 : TrajState) (n : ℕ) (s : TrajState) : Prop :=
  (∀ M, s.MoData M =
    if M < n ∨ (xsize * ysize ≤ M ∧ M < xsize * ysize + n) then s0.MoData M * v
    else s0.MoData M) ∧
  (∀ X Y, X < xsize → Y < ysize → Y * xsize + X < n →
    s.OneStepMotion (Y * xsize + X) = oneStepIdx xsize ysize s0.MoData X Y) ∧
  (∀ M, n ≤ M → s.OneStepMotion M = s0.OneStepMotion M) ∧
  s.trajecLUT = s0.trajecLUT

/-- The pixel body of the sweep in the words of the order-independence claim: as `sweepPixel`,
but the substeps read the snapshot `snap` of the future field taken before the sweep. -/
def sweepPixelSnapshot (e : SweepEnv) (snap : ℕ → ℕ) (s : SweepState) (X Y : ℕ) :
    SweepState :=
  let N := Y * e.xsize + X
  let A := forRange e.intsteps (substepStore e snap N) s.Accdata
  let offN := e.OneStepMotion N
  { Accdata := A,
    futuZI := if offN < 0 ∨ e.pastZI offN.toNat = e.newNodata
              then Function.update s.futuZI N e.newNodata else s.futuZI }

/-- The sweep that reads a snapshot of the future field taken before the sweep. -/
def interpolation_snapshot (e : SweepEnv) (s : SweepState) : SweepState :=
  forPixels e.xsize e.ysize (sweepPixelSnapshot e s.futuZI) s

/-! ## Further concrete runs -/

/-- Ensemble of two members on a 1x1 grid, the deterministic member 0 with the weight the
schedule gives at step 1 for initial weight 10 percent, span 150 percent, 4 steps. -/
def exRoundCfg : EnsCfg :=
  { members := 2, DETERM_ENSMEAN := true, DETERM_W := true,
    determ_w := determ_w 10 150 2 4 1, Ensmean_nodata := 255 }

/-- The zero motion field. -/
def exMotionZero : ℕ → ℚ := fun _ => 0

/-- Sweep of the identity-advection scenario on an `xsize` x `ysize` grid: 2 substeps, tables
built by `trajecLUT_thread` from the zero motion field, accumulation tables built from the
rain-rate accumulations `IR` with top code `maxN`, past field uniformly code `c`. -/
def identityEnv (xsize ysize : ℕ) (IR : ℕ → ℤ) (maxN c : ℕ) : SweepEnv :=
  { xsize := xsize, ysize := ysize, intsteps := 2, newNodata := maxN + 1,
    AccFromZI := buildAccFromZI IR maxN,
    AccAverLUT := buildAccAverLUT (buildAccFromZI IR maxN) maxN 2,
    trajecLUT := (trajecLUT_thread xsize ysize 2 (trajInit exMotionZero)).trajecLUT,
    OneStepMotion := (trajecLUT_thread xsize ysize 2 (trajInit exMotionZero)).OneStepMotion,
    pastZI := fun _ => c }

/-- Buffers of the identity-advection scenario: `Accdata` zero, future field uniformly `c`. -/
def identityState (c : ℕ) : SweepState := { Accdata := fun _ => 0, futuZI := fun _ => c }

/-- Motion field of a 3x1 grid: pixel 0 moves 10 pixels right, pixel 1 moves 2 pixels left,
pixel 2 rests (`dx = [10, -2, 0]`, `dy = [0, 0, 0]`). -/
def exMotionMixed : ℕ → ℚ := fun N => if N = 0 then 10 else if N = 1 then -2 else 0

/-- Sweep on the 3x1 grid, 2 substeps, motion `exMotionMixed`, past field uniformly code 1. -/
def exEnvMixed : SweepEnv :=
  { xsize := 3, ysize := 1, intsteps := 2, newNodata := 4,
    AccFromZI := exAccFromZI, AccAverLUT := buildAccAverLUT exAccFromZI 3 2,
    trajecLUT := (trajecLUT_thread 3 1 2 (trajInit exMotionMixed)).trajecLUT,
    OneStepMotion := (trajecLUT_thread 3 1 2 (trajInit exMotionMixed)).OneStepMotion,
    pastZI := fun _ => 1 }

/-! ## Loop rules -/

theorem forRange_zero {σ : Type} (body : σ → ℕ → σ) (s : σ) : forRange 0 body s = s := rfl

theorem forRange_succ {σ : Type} (n : ℕ) (body : σ → ℕ → σ) (s : σ) :
    forRange (n + 1) body s = body (forRange n body s) n := by
  simp [forRange, List.range_succ, List.foldl_append]

/-- Invariant rule for `forRange`. -/
theorem forRange_inv {σ : Type} (I : ℕ → σ → Prop) (n : ℕ) (body : σ → ℕ → σ) (s : σ)
    (h0 : I 0 s) (hs : ∀ i t, i < n → I i t → I (i + 1) (body t i)) :
    I n (forRange n body s) := by
  induction n with
  | zero => simpa [forRange_zero] using h0
  | succ n ih =>
    rw [forRange_succ]
    exact hs n _ (Nat.lt_succ_self n) (ih (fun i t hi => hs i t (Nat.lt_succ_of_lt hi)))

/-- Invariant rule for the row-major pixel loop: the invariant is indexed by the number of
pixels already visited, which is the flat index of the pixel visited next. -/
theorem forPixels_inv {σ : Type} (I : ℕ → σ → Prop) (xsize ysize : ℕ)
    (body : σ → ℕ → ℕ → σ) (s : σ) (h0 : I 0 s)
    (hs : ∀ X Y t, X < xsize → Y < ysize → I (Y * xsize + X) t →
      I (Y * xsize + X + 1) (body t X Y)) :
    I (ysize * xsize) (forPixels xsize ysize body s) := by
  unfold forPixels
  refine forRange_inv (fun Y t => I (Y * xsize) t) ysize _ s (by simpa using h0) ?_
  intro Y t hY hI
  have h := forRange_inv (fun X u => I (Y * xsize + X) u) xsize
    (fun u X => body u X Y) t (by simpa using hI) (fun X u hX hu => hs X Y u hX hY hu)
  have e : (Y + 1) * xsize = Y * xsize + xsize := by ring
  rw [e]
  exact h

/-! ## The interpolation sweep -/

/-- The substep loop only ever stores into `Accdata[mI][N]`. -/
theorem substepLoop_eq (e : SweepEnv) (f : ℕ → ℕ) (N n : ℕ) (A : ℕ → ℤ) :
    forRange n (substepStore e f N) A = Function.update A N (pixelAcc e f N n (A N)) := by
  induction n with
  | zero => simp [forRange_zero, pixelAcc]
  | succ n ih =>
    rw [forRange_succ, ih]
    unfold pixelAcc
    rw [forRange_succ]
    unfold substepStore
    by_cases h : 0 ≤ substepAcc e f N n <;> simp [h]

theorem sweepPixel_inv (e : SweepEnv) (s0 s : SweepState) (X Y : ℕ)
    (h : SweepInv e s0 (Y * e.xsize + X) s) :
    SweepInv e s0 (Y * e.xsize + X + 1) (sweepPixel e s X Y) := by
  obtain ⟨hf, ha⟩ := h
  have hfe : s.futuZI = futuSeen e s0.futuZI (Y * e.xsize + X) := funext hf
  constructor
  · intro M
    show (if e.OneStepMotion (Y * e.xsize + X) < 0 ∨
        e.pastZI (e.OneStepMotion (Y * e.xsize + X)).toNat = e.newNodata
      then Function.update s.futuZI (Y * e.xsize + X) e.newNodata else s.futuZI) M = _
    by_cases hM : M = Y * e.xsize + X
    · subst hM
      by_cases hadv : advectsNodata e (Y * e.xsize + X)
      · have hadv2 := hadv
        unfold advectsNodata at hadv2
        simp [futuSeen, hadv, hadv2]
      · have hadv2 := hadv
        unfold advectsNodata at hadv2
        simp [futuSeen, hadv, hadv2, hf]
    · have hlt : (M < Y * e.xsize + X + 1) ↔ (M < Y * e.xsize + X) := by omega
      split <;> simp [Function.update, hM, hf, futuSeen, hlt]
  · intro M
    show (forRange e.intsteps (substepStore e s.futuZI (Y * e.xsize + X)) s.Accdata) M = _
    rw [substepLoop_eq]
    by_cases hM : M = Y * e.xsize + X
    · subst hM
      simp [ha, hfe]
    · have hlt : (M < Y * e.xsize + X + 1) ↔ (M < Y * e.xsize + X) := by omega
      simp [Function.update, hM, ha, hlt]

/-- What `interpolation_thread` leaves in the future field and in `Accdata`. -/
theorem sweep_result (e : SweepEnv) (s0 : SweepState) :
    SweepInv e s0 (e.ysize * e.xsize) (interpolation_thread e s0) := by
  unfold interpolation_thread
  refine forPixels_inv (SweepInv e s0) e.xsize e.ysize (sweepPixel e) s0 ?_ ?_
  · constructor <;> intro M <;> simp [futuSeen]
  · intro X Y t _ _ h
    exact sweepPixel_inv e s0 t X Y h

theorem pixelAcc_valid (e : SweepEnv) (f : ℕ → ℕ) (N n : ℕ) (a : ℤ)
    (h : ∀ iI, iI < n → 0 ≤ substepAcc e f N iI) :
    pixelAcc e f N n a = a + substepSum e f N n := by
  induction n with
  | zero => simp [pixelAcc, substepSum, forRange_zero]
  | succ n ih =>
    have ih2 := ih (fun i hi => h i (Nat.lt_succ_of_lt hi))
    unfold pixelAcc at ih2 ⊢
    rw [forRange_succ, ih2]
    simp [h n (Nat.lt_succ_self n), substepSum, List.range_succ]
    ring

/-- C1 (evaluation at the failing input).  On the 3x1 grid with 4 substeps and every pixel moving
2 pixels right, pixel 1 has a `FUTU` index of `-1` at table slot 0, so substep 1 contributes
nodata; substeps 2 and 3 are valid again and `Accdata` ends at `-1 + 100 + 100 = 199`,
not at the nodata sentinel `-1`. -/
theorem nodata_substep_followed_by_valid_substeps :
    exEnvRight.trajecLUT (1, 0, 1) = -1 ∧
    substepAcc exEnvRight (futuSeen exEnvRight exState0.futuZI 1) 1 1 = -1 ∧
    substepAcc exEnvRight (futuSeen exEnvRight exState0.futuZI 1) 1 2 = 100 ∧
    substepAcc exEnvRight (futuSeen exEnvRight exState0.futuZI 1) 1 3 = 100 ∧
    (interpolation_thread exEnvRight exState0).Accdata 1 = 199 := by decide!

/-- C2 (counterexample).  In the second step of the zero-motion run on the 1x1 grid both
substeps at pixel 0 are valid and contribute `100 + 100 = 200`, yet `Accdata` ends at `400`:
the `200` of the first step is still in the buffer. -/
theorem second_step_keeps_first_step_accumulation :
    (∀ iI, iI < exEnvZero2.intsteps →
      0 ≤ substepAcc exEnvZero2 (futuSeen exEnvZero2 exZeroState2.futuZI 0) 0 iI) ∧
    substepSum exEnvZero2 (futuSeen exEnvZero2 exZeroState2.futuZI 0) 0 exEnvZero2.intsteps
      = 200 ∧
    exZeroState2.Accdata 0 = 200 ∧
    (interpolation_thread exEnvZero2 exZeroState2).Accdata 0 = 400 ∧
    (interpolation_thread exEnvZero2 exZeroState2).Accdata 0 ≠
      substepSum exEnvZero2 (futuSeen exEnvZero2 exZeroState2.futuZI 0) 0
        exEnvZero2.intsteps := by decide!

/-- C2 (amended).  At every step and every pixel `(X, Y)` of the grid all of whose substeps are
valid, `Accdata` after `interpolation_thread` is the value the buffer held at that pixel
before the sweep plus the sum of the substep contributions of this step (read from the
future field as the sweep finds it at that pixel). -/
theorem accumulation_adds_step_sum_to_buffer (e : SweepEnv) (s0 : SweepState) (X Y : ℕ)
    (hX : X < e.xsize) (hY : Y < e.ysize)
    (hvalid : ∀ iI, iI < e.intsteps →
      0 ≤ substepAcc e (futuSeen e s0.futuZI (Y * e.xsize + X)) (Y * e.xsize + X) iI) :
    (interpolation_thread e s0).Accdata (Y * e.xsize + X) =
      s0.Accdata (Y * e.xsize + X) +
        substepSum e (futuSeen e s0.futuZI (Y * e.xsize + X)) (Y * e.xsize + X) e.intsteps := by
  have hN : Y * e.xsize + X < e.ysize * e.xsize := by
    have h1 : (Y + 1) * e.xsize ≤ e.ysize * e.xsize := Nat.mul_le_mul_right _ hY
    have h2 : (Y + 1) * e.xsize = Y * e.xsize + e.xsize := by ring
    omega
  rw [(sweep_result e s0).2, if_pos hN]
  exact pixelAcc_valid e _ _ _ _ hvalid

theorem accumulation_adds_step_sum_to_buffer_witness :
    (interpolation_thread exEnvZero2 exZeroState2).Accdata (0 * exEnvZero2.xsize + 0) =
      exZeroState2.Accdata (0 * exEnvZero2.xsize + 0) +
        substepSum exEnvZero2 (futuSeen exEnvZero2 exZeroState2.futuZI
          (0 * exEnvZero2.xsize + 0)) (0 * exEnvZero2.xsize + 0) exEnvZero2.intsteps :=
  accumulation_adds_step_sum_to_buffer exEnvZero2 exZeroState2 0 0 (by decide) (by decide)
    (by decide!)


/-! ## Stores of a loop into one cell -/

theorem writesAt_foldl_none {κ ι : Type} (f : (κ → ℤ) → ι → (κ → ℤ)) (c : κ) (l : List ι)
    (h : ∀ i ∈ l, WritesAt (fun T => f T i) c none) :
    WritesAt (fun T => l.foldl f T) c none := by
  induction l with
  | nil => intro T; rfl
  | cons x l ih =>
    intro T
    have h1 := ih (fun i hi => h i (List.mem_cons_of_mem _ hi)) (f T x)
    have h2 := h x (List.mem_cons_self _ _) T
    simp only [Option.getD_none, List.foldl_cons] at h1 h2 ⊢
    rw [h1, h2]

theorem writesAt_foldl_some {κ ι : Type} (f : (κ → ℤ) → ι → (κ → ℤ)) (c : κ) (v : ℤ)
    (l : List ι) (hex : ∃ i ∈ l, WritesAt (fun T => f T i) c (some v))
    (hall : ∀ j ∈ l, WritesAt (fun T => f T j) c none ∨ WritesAt (fun T => f T j) c (some v)) :
    WritesAt (fun T => l.foldl f T) c (some v) := by
  induction l with
  | nil => obtain ⟨i, hi, _⟩ := hex; cases hi
  | cons x l ih =>
    intro T
    simp only [List.foldl_cons, Option.getD_some]
    by_cases hl : ∃ i ∈ l, WritesAt (fun T => f T i) c (some v)
    · exact ih hl (fun j hj => hall j (List.mem_cons_of_mem _ hj)) (f T x)
    · have hnone : ∀ i ∈ l, WritesAt (fun T => f T i) c none := by
        intro i hi
        rcases hall i (List.mem_cons_of_mem _ hi) with h | h
        · exact h
        · exact absurd ⟨i, hi, h⟩ hl
      have h1 := writesAt_foldl_none f c l hnone (f T x)
      simp only [Option.getD_none] at h1
      rw [h1]
      obtain ⟨i, hi, hw⟩ := hex
      rcases List.mem_cons.mp hi with rfl | hi2
      · exact hw T
      · exact absurd ⟨i, hi2, hw⟩ hl

/-- A loop whose passes each store a known value or nothing into cell `c` stores `r` into `c`
when `r` accounts for the passes. -/
theorem writesAt_foldl {κ ι : Type} (f : (κ → ℤ) → ι → (κ → ℤ)) (c : κ) (l : List ι)
    (o : ι → Option ℤ) (r : Option ℤ)
    (ho : ∀ i ∈ l, WritesAt (fun T => f T i) c (o i))
    (hnone : r = none → ∀ i ∈ l, o i = none)
    (hsome : ∀ v, r = some v → (∃ i ∈ l, o i = some v) ∧ ∀ j ∈ l, o j = none ∨ o j = some v) :
    WritesAt (fun T => l.foldl f T) c r := by
  cases r with
  | none =>
    exact writesAt_foldl_none f c l (fun i hi => by
      have := ho i hi; rw [hnone rfl i hi] at this; exact this)
  | some v =>
    obtain ⟨⟨i, hi, hiv⟩, hall⟩ := hsome v rfl
    refine writesAt_foldl_some f c v l ⟨i, hi, ?_⟩ ?_
    · have := ho i hi; rw [hiv] at this; exact this
    · intro j hj
      have := ho j hj
      rcases hall j hj with h | h <;> rw [h] at this
      · exact Or.inl this
      · exact Or.inr this

theorem writesAt_forRange {κ : Type} (f : (κ → ℤ) → ℕ → (κ → ℤ)) (c : κ) (n : ℕ)
    (o : ℕ → Option ℤ) (r : Option ℤ)
    (ho : ∀ i, i < n → WritesAt (fun T => f T i) c (o i))
    (hnone : r = none → ∀ i, i < n → o i = none)
    (hsome : ∀ v, r = some v →
      (∃ i, i < n ∧ o i = some v) ∧ ∀ j, j < n → o j = none ∨ o j = some v) :
    WritesAt (fun T => forRange n f T) c r := by
  unfold forRange
  refine writesAt_foldl f c (List.range n) o r ?_ ?_ ?_
  · intro i hi; exact ho i (List.mem_range.mp hi)
  · intro hr i hi; exact hnone hr i (List.mem_range.mp hi)
  · intro v hv
    obtain ⟨⟨i, hi, hiv⟩, hall⟩ := hsome v hv
    exact ⟨⟨i, List.mem_range.mpr hi, hiv⟩, fun j hj => hall j (List.mem_range.mp hj)⟩

theorem writesAt_forFromTo {κ : Type} (f : (κ → ℤ) → ℕ → (κ → ℤ)) (c : κ) (a b : ℕ)
    (o : ℕ → Option ℤ) (r : Option ℤ)
    (ho : ∀ i, a ≤ i → i < b → WritesAt (fun T => f T i) c (o i))
    (hnone : r = none → ∀ i, a ≤ i → i < b → o i = none)
    (hsome : ∀ v, r = some v →
      (∃ i, a ≤ i ∧ i < b ∧ o i = some v) ∧ ∀ j, a ≤ j → j < b → o j = none ∨ o j = some v) :
    WritesAt (fun T => forFromTo a b f T) c r := by
  unfold forFromTo
  have hm : ∀ i, i ∈ List.range' a (b - a) ↔ a ≤ i ∧ i < b := by
    intro i; rw [List.mem_range'_1]; omega
  refine writesAt_foldl f c (List.range' a (b - a)) o r ?_ ?_ ?_
  · intro i hi; exact ho i ((hm i).mp hi).1 ((hm i).mp hi).2
  · intro hr i hi; exact hnone hr i ((hm i).mp hi).1 ((hm i).mp hi).2
  · intro v hv
    obtain ⟨⟨i, hi1, hi2, hiv⟩, hall⟩ := hsome v hv
    exact ⟨⟨i, (hm i).mpr ⟨hi1, hi2⟩, hiv⟩,
      fun j hj => hall j ((hm j).mp hj).1 ((hm j).mp hj).2⟩

/-! ## The accumulation interpolation table -/

theorem interpSlot_writes (A : ℕ → ℤ) (s il zN0 zN1 X c0 c1 k : ℕ) :
    WritesAt (fun T => interpSlot A s il zN0 zN1 T X) (c0, c1, k)
      (if zN0 = zN1 then (if c0 = zN0 ∧ c1 = zN0 ∧ k = X then some (A zN0) else none)
       else if (c0 = zN0 ∧ c1 = zN1 ∧ k = X) ∨ (c0 = zN1 ∧ c1 = zN0 ∧ k = il - 1 - X)
         then some (interpVal A s zN0 zN1 X) else none) := by
  intro T
  unfold interpSlot interpVal
  by_cases h : zN0 = zN1
  · subst h
    by_cases hc : c0 = zN0 ∧ c1 = zN0 ∧ k = X
    · obtain ⟨rfl, rfl, rfl⟩ := hc
      simp
    · have hne : (c0, c1, k) ≠ (zN0, zN0, X) := by
        intro he; simp only [Prod.mk.injEq] at he; exact hc he
      simp [hc, Function.update_noteq hne]
  · by_cases h1 : c0 = zN0 ∧ c1 = zN1 ∧ k = X
    · obtain ⟨rfl, rfl, rfl⟩ := h1
      simp [h]
    · have hne1 : (c0, c1, k) ≠ (zN0, zN1, X) := by
        intro he; simp only [Prod.mk.injEq] at he; exact h1 he
      by_cases h2 : c0 = zN1 ∧ c1 = zN0 ∧ k = il - 1 - X
      · obtain ⟨rfl, rfl, rfl⟩ := h2
        simp [h, h1, Function.update_noteq hne1]
      · have hne2 : (c0, c1, k) ≠ (zN1, zN0, il - 1 - X) := by
          intro he; simp only [Prod.mk.injEq] at he; exact h2 he
        simp [h, h1, h2, Function.update_noteq hne1, Function.update_noteq hne2]

theorem slotLoop_writes (A : ℕ → ℤ) (s il zN0 zN1 c0 c1 k : ℕ) :
    WritesAt (fun T => forRange il (interpSlot A s il zN0 zN1) T) (c0, c1, k)
      (pairStores A s il zN0 zN1 c0 c1 k) := by
  refine writesAt_forRange _ _ il _ _ (fun X _ => interpSlot_writes A s il zN0 zN1 X c0 c1 k)
    ?_ ?_
  · intro hr X hX
    unfold pairStores at hr
    split_ifs at hr with h1 h2 h3
    by_cases h : zN0 = zN1
    · simp only [h, if_true]
      rw [if_neg]
      rintro ⟨a, b, c⟩
      exact h1 ⟨by omega, h, by omega, by omega⟩
    · simp only [h, if_false]
      rw [if_neg]
      rintro (⟨a, b, c⟩ | ⟨a, b, c⟩)
      · exact h2 ⟨by omega, h, a, b⟩
      · exact h3 ⟨by omega, h, a, b⟩
  · intro v hv
    unfold pairStores at hv
    split_ifs at hv with h1 h2 h3
    · obtain ⟨hk, h, a, b⟩ := h1
      simp only [Option.some.injEq] at hv
      subst hv
      refine ⟨⟨k, hk, by simp [h, a, b]⟩, ?_⟩
      intro j _
      simp only [h, if_true]
      split_ifs <;> simp
    · obtain ⟨hk, h, a, b⟩ := h2
      simp only [Option.some.injEq] at hv
      subst hv
      refine ⟨⟨k, hk, by simp [h, a, b]⟩, ?_⟩
      intro j _
      simp only [h, if_false]
      by_cases hj : (c0 = zN0 ∧ c1 = zN1 ∧ k = j) ∨ (c0 = zN1 ∧ c1 = zN0 ∧ k = il - 1 - j)
      · rw [if_pos hj]
        right
        rcases hj with ⟨_, _, e⟩ | ⟨e1, _, _⟩
        · rw [e]
        · exact absurd (a.symm.trans e1) h
      · rw [if_neg hj]; left; rfl
    · obtain ⟨hk, h, a, b⟩ := h3
      simp only [Option.some.injEq] at hv
      subst hv
      refine ⟨⟨il - 1 - k, by omega, ?_⟩, ?_⟩
      · simp only [h, if_false]
        rw [if_pos]
        right
        exact ⟨a, b, by omega⟩
      · intro j hjl
        simp only [h, if_false]
        by_cases hj : (c0 = zN0 ∧ c1 = zN1 ∧ k = j) ∨ (c0 = zN1 ∧ c1 = zN0 ∧ k = il - 1 - j)
        · rw [if_pos hj]
          right
          rcases hj with ⟨e1, _, _⟩ | ⟨_, _, e⟩
          · exact absurd (e1.symm.trans a) h
          · have : j = il - 1 - k := by omega
            rw [this]
        · rw [if_neg hj]; left; rfl

theorem rowLoop_writes (A : ℕ → ℤ) (s il L zN0 c0 c1 k : ℕ) :
    WritesAt (fun T => forFromTo zN0 L
        (fun T zN1 => forRange il (interpSlot A s il zN0 zN1) T) T) (c0, c1, k)
      (rowStores A s il L zN0 c0 c1 k) := by
  refine writesAt_forFromTo _ _ zN0 L _ _
    (fun zN1 _ _ => slotLoop_writes A s il zN0 zN1 c0 c1 k) ?_ ?_
  · intro hr zN1 h1 h2
    unfold rowStores at hr
    split_ifs at hr with a b c
    unfold pairStores
    rw [if_neg (by omega), if_neg (by omega), if_neg (by omega)]
  · intro v hv
    unfold rowStores at hv
    split_ifs at hv with a b c
    · simp only [Option.some.injEq] at hv
      subst hv
      refine ⟨⟨zN0, le_refl _, by omega, ?_⟩, ?_⟩
      · unfold pairStores; rw [if_pos (by omega)]
      · intro j _ _
        unfold pairStores
        split_ifs with p q r
        · right; rfl
        · exfalso; omega
        · exfalso; omega
        · left; rfl
    · simp only [Option.some.injEq] at hv
      subst hv
      refine ⟨⟨c1, by omega, by omega, ?_⟩, ?_⟩
      · unfold pairStores; rw [if_neg (by omega), if_pos (by omega)]
      · intro j _ _
        unfold pairStores
        split_ifs with p q r
        · exfalso; omega
        · right; obtain ⟨_, _, _, e⟩ := q; rw [e]
        · exfalso; omega
        · left; rfl
    · simp only [Option.some.injEq] at hv
      subst hv
      refine ⟨⟨c0, by omega, by omega, ?_⟩, ?_⟩
      · unfold pairStores; rw [if_neg (by omega), if_neg (by omega), if_pos (by omega)]
      · intro j _ _
        unfold pairStores
        split_ifs with p q r
        · exfalso; omega
        · exfalso; omega
        · right; obtain ⟨_, _, e, _⟩ := r; rw [e]
        · left; rfl

theorem interpLoop_writes (A : ℕ → ℤ) (s L c0 c1 k : ℕ) :
    WritesAt (fun T => interpLoop A s L T) (c0, c1, k)
      (interpStores A s (s - 1) L c0 c1 k) := by
  unfold interpLoop
  refine writesAt_forFromTo _ _ 1 L _ _
    (fun zN0 _ _ => rowLoop_writes A s (s - 1) L zN0 c0 c1 k) ?_ ?_
  · intro hr zN0 h1 h2
    unfold interpStores at hr
    split_ifs at hr with a
    unfold rowStores
    rw [if_neg (by omega), if_neg (by omega), if_neg (by omega)]
  · intro v hv
    unfold interpStores at hv
    split_ifs at hv with a
    simp only [Option.some.injEq] at hv
    subst hv
    unfold interpEntry
    by_cases e : c0 = c1
    · rw [if_pos e]
      refine ⟨⟨c0, by omega, by omega, ?_⟩, ?_⟩
      · unfold rowStores; rw [if_pos (by omega)]
      · intro j _ _
        unfold rowStores
        split_ifs with p q r
        · right; obtain ⟨_, e2, _⟩ := p; rw [e2]
        · exfalso; omega
        · exfalso; omega
        · left; rfl
    · rw [if_neg e]
      by_cases l : c0 < c1
      · rw [if_pos l]
        refine ⟨⟨c0, by omega, by omega, ?_⟩, ?_⟩
        · unfold rowStores; rw [if_neg (by omega), if_pos (by omega)]
        · intro j _ _
          unfold rowStores
          split_ifs with p q r
          · exfalso; omega
          · right; obtain ⟨_, e2, _⟩ := q; rw [e2]
          · exfalso; omega
          · left; rfl
      · rw [if_neg l]
        refine ⟨⟨c1, by omega, by omega, ?_⟩, ?_⟩
        · unfold rowStores; rw [if_neg (by omega), if_neg (by omega), if_pos (by omega)]
        · intro j _ _
          unfold rowStores
          split_ifs with p q r
          · exfalso; omega
          · exfalso; omega
          · right; obtain ⟨_, e2, _⟩ := r; rw [e2]
          · left; rfl

theorem nodataLoop_writes (s nn L c0 c1 k : ℕ) :
    WritesAt (fun T => nodataLoop s nn L T) (c0, c1, k)
      (nodataStores (s - 1) nn L c0 c1 k) := by
  unfold nodataLoop
  refine writesAt_forRange _ _ L
    (fun zN => if k < s - 1 ∧ ((c0 = zN ∧ c1 = nn) ∨ (c0 = nn ∧ c1 = zN)) then some (-1)
      else none) _ ?_ ?_ ?_
  · intro zN _
    refine writesAt_forRange _ _ (s - 1)
      (fun X => if k = X ∧ ((c0 = zN ∧ c1 = nn) ∨ (c0 = nn ∧ c1 = zN)) then some (-1)
        else none) _ ?_ ?_ ?_
    · intro X _ T
      dsimp only
      by_cases h2 : (c0, c1, k) = (nn, zN, X)
      · simp only [Prod.mk.injEq] at h2
        obtain ⟨rfl, rfl, rfl⟩ := h2
        simp
      · rw [Function.update_noteq h2]
        by_cases h1 : (c0, c1, k) = (zN, nn, X)
        · simp only [Prod.mk.injEq] at h1
          obtain ⟨rfl, rfl, rfl⟩ := h1
          simp
        · rw [Function.update_noteq h1]
          simp only [Prod.mk.injEq] at h1 h2
          rw [if_neg]
          · rfl
          · rintro ⟨e, (⟨a, b⟩ | ⟨a, b⟩)⟩
            · exact h1 ⟨a, b, e⟩
            · exact h2 ⟨a, b, e⟩
    · intro hr X hX
      dsimp only at hr ⊢
      split_ifs at hr with a
      rw [if_neg]
      rintro ⟨e, h⟩
      exact a ⟨by omega, h⟩
    · intro v hv
      dsimp only at hv ⊢
      split_ifs at hv with a
      simp only [Option.some.injEq] at hv
      subst hv
      refine ⟨⟨k, a.1, by rw [if_pos ⟨rfl, a.2⟩]⟩, ?_⟩
      intro j _
      split_ifs
      · right; rfl
      · left; rfl
  · intro hr zN hz
    unfold nodataStores at hr
    dsimp only
    split_ifs at hr with a
    rw [if_neg]
    rintro ⟨e, (⟨p, q⟩ | ⟨p, q⟩)⟩
    · exact a ⟨e, Or.inl ⟨by omega, q⟩⟩
    · exact a ⟨e, Or.inr ⟨p, by omega⟩⟩
  · intro v hv
    unfold nodataStores at hv
    dsimp only
    split_ifs at hv with a
    simp only [Option.some.injEq] at hv
    subst hv
    constructor
    · rcases a with ⟨e, (⟨p, q⟩ | ⟨p, q⟩)⟩
      · exact ⟨c0, p, by rw [if_pos ⟨e, Or.inl ⟨rfl, q⟩⟩]⟩
      · exact ⟨c1, q, by rw [if_pos ⟨e, Or.inr ⟨p, rfl⟩⟩]⟩
    · intro j _
      split_ifs
      · right; rfl
      · left; rfl

/-- Every entry of `AccAverLUT` in closed form: what the nodata loop stored, else what the
interpolation loop stored, else the `0` of `calloc`. -/
theorem buildAccAverLUT_entry (A : ℕ → ℤ) (maxN s c0 c1 k : ℕ) :
    buildAccAverLUT A maxN s (c0, c1, k) =
      (nodataStores (s - 1) (maxN + 1) (maxN + 1 + 1) c0 c1 k).getD
        ((interpStores A s (s - 1) (maxN + 1 + 1) c0 c1 k).getD 0) := by
  unfold buildAccAverLUT
  have h1 := nodataLoop_writes s (maxN + 1) (maxN + 1 + 1) c0 c1 k
    (interpLoop A s (maxN + 1 + 1) (fun _ => 0))
  have h2 := interpLoop_writes A s (maxN + 1 + 1) c0 c1 k (fun _ => 0)
  dsimp only at h1 h2
  rw [h1, h2]

/-- C3.  Symmetry law of the accumulation interpolation table: for all codes `c0, c1` in
`[0, NODATA_CODE]` (`NODATA_CODE = maxN+1`) and every slot `k` in `[0, substeps-2]`,
`AccAverLUT[c0][c1][k] = AccAverLUT[c1][c0][substeps-2-k]`. -/
theorem accAverLUT_symmetric (A : ℕ → ℤ) (maxN intsteps c0 c1 k : ℕ)
    (h0 : c0 ≤ maxN + 1) (h1 : c1 ≤ maxN + 1) (hk : k < intsteps - 1) :
    buildAccAverLUT A maxN intsteps (c0, c1, k) =
      buildAccAverLUT A maxN intsteps (c1, c0, intsteps - 2 - k) := by
  rw [buildAccAverLUT_entry, buildAccAverLUT_entry]
  have hk2 : intsteps - 2 - k < intsteps - 1 := by omega
  have hm : intsteps - 1 - 1 - (intsteps - 2 - k) = k := by omega
  have hm2 : intsteps - 1 - 1 - k = intsteps - 2 - k := by omega
  by_cases hn : (c0 < maxN + 1 + 1 ∧ c1 = maxN + 1) ∨ (c0 = maxN + 1 ∧ c1 < maxN + 1 + 1)
  · have hn2 : (c1 < maxN + 1 + 1 ∧ c0 = maxN + 1) ∨ (c1 = maxN + 1 ∧ c0 < maxN + 1 + 1) := by
      omega
    simp only [nodataStores, hk, hk2, hn, hn2, and_self, if_true, Option.getD_some]
  · have hn2 : ¬((c1 < maxN + 1 + 1 ∧ c0 = maxN + 1) ∨
        (c1 = maxN + 1 ∧ c0 < maxN + 1 + 1)) := by omega
    simp only [nodataStores, hn, hn2, and_false, if_false, Option.getD_none]
    by_cases hp : 1 ≤ c0 ∧ 1 ≤ c1
    · have e1 : k < intsteps - 1 ∧ 1 ≤ c0 ∧ 1 ≤ c1 ∧ c0 < maxN + 1 + 1 ∧ c1 < maxN + 1 + 1 := by
        omega
      have e2 : intsteps - 2 - k < intsteps - 1 ∧ 1 ≤ c1 ∧ 1 ≤ c0 ∧ c1 < maxN + 1 + 1 ∧
          c0 < maxN + 1 + 1 := by omega
      simp only [interpStores, e1, e2, and_self, if_true, Option.getD_some, interpEntry]
      by_cases e : c0 = c1
      · subst e; simp
      · have e' : ¬ c1 = c0 := fun h => e h.symm
        by_cases l : c0 < c1
        · have l' : ¬ c1 < c0 := by omega
          simp only [e, e', l, l', if_true, if_false, hm]
        · have l' : c1 < c0 := by omega
          simp only [e, e', l, l', if_true, if_false, hm2]
    · have e1 : ¬(k < intsteps - 1 ∧ 1 ≤ c0 ∧ 1 ≤ c1 ∧ c0 < maxN + 1 + 1 ∧
          c1 < maxN + 1 + 1) := by omega
      have e2 : ¬(intsteps - 2 - k < intsteps - 1 ∧ 1 ≤ c1 ∧ 1 ≤ c0 ∧ c1 < maxN + 1 + 1 ∧
          c0 < maxN + 1 + 1) := by omega
      simp only [interpStores, e1, e2, if_false]

theorem accAverLUT_symmetric_witness :
    buildAccAverLUT exAccFromZI 3 4 (1, 2, 0) =
      buildAccAverLUT exAccFromZI 3 4 (2, 1, 4 - 2 - 0) :=
  accAverLUT_symmetric exAccFromZI 3 4 1 2 0 (by decide) (by decide) (by decide)

/-- C4.  For every code `z` in `[0, NODATA_CODE]` and every slot `k` of the table, both
`AccAverLUT[NODATA_CODE][z][k]` and `AccAverLUT[z][NODATA_CODE][k]` are `-1`, where
`NODATA_CODE = newNodata = maxN+1`. -/
theorem accAverLUT_nodata (A : ℕ → ℤ) (maxN intsteps z k : ℕ)
    (hz : z ≤ maxN + 1) (hk : k < intsteps - 1) :
    buildAccAverLUT A maxN intsteps (maxN + 1, z, k) = -1 ∧
    buildAccAverLUT A maxN intsteps (z, maxN + 1, k) = -1 := by
  rw [buildAccAverLUT_entry, buildAccAverLUT_entry]
  have hz' : z < maxN + 1 + 1 := by omega
  constructor
  · simp [nodataStores, hk, hz']
  · simp [nodataStores, hk, hz']

theorem accAverLUT_nodata_witness :
    buildAccAverLUT exAccFromZI 3 4 (3 + 1, 2, 1) = -1 ∧
    buildAccAverLUT exAccFromZI 3 4 (2, 3 + 1, 1) = -1 :=
  accAverLUT_nodata exAccFromZI 3 4 2 1 (by decide) (by decide)

/-- For codes `c0, c1` in `[1, maxN]` the table entry is the truncated linear interpolation
between `AccFromZI[c0]` and `AccFromZI[c1]` at substep `k+1` of `intsteps`. -/
theorem accAverLUT_interpolates (A : ℕ → ℤ) (maxN intsteps c0 c1 k : ℕ)
    (h0 : 1 ≤ c0) (h0' : c0 ≤ maxN) (h1 : 1 ≤ c1) (h1' : c1 ≤ maxN) (hk : k < intsteps - 1) :
    buildAccAverLUT A maxN intsteps (c0, c1, k) =
      truncZ ((A c0 : ℚ) + ((A c1 - A c0 : ℤ) : ℚ) * ((k : ℚ) + 1) / (intsteps : ℚ)) := by
  rw [buildAccAverLUT_entry]
  have hnd : nodataStores (intsteps - 1) (maxN + 1) (maxN + 1 + 1) c0 c1 k = none := by
    unfold nodataStores
    split_ifs with h
    · exfalso; omega
    · rfl
  have hin : interpStores A intsteps (intsteps - 1) (maxN + 1 + 1) c0 c1 k =
      some (interpEntry A intsteps (intsteps - 1) c0 c1 k) := by
    unfold interpStores
    rw [if_pos (by omega)]
  rw [hnd, hin]
  simp only [Option.getD_none, Option.getD_some, interpEntry]
  have hs : (intsteps : ℚ) ≠ 0 := by
    have : 0 < intsteps := by omega
    exact_mod_cast this.ne'
  have htr : ∀ z : ℤ, truncZ (z : ℚ) = z := by
    intro z
    unfold truncZ
    split_ifs <;> simp
  by_cases e : c0 = c1
  · subst e
    simp only [if_true, sub_self, Int.cast_zero, zero_mul, zero_div, add_zero, htr]
  · by_cases l : c0 < c1
    · simp only [e, l, if_true, if_false, interpVal]
      congr 1
      push_cast
      ring
    · simp only [e, l, if_false, interpVal]
      congr 1
      have hc : ((intsteps - 1 - 1 - k + 1 : ℕ) : ℚ) = (intsteps : ℚ) - 1 - (k : ℚ) := by
        have : intsteps - 1 - 1 - k + 1 + 1 + k = intsteps := by omega
        have h2 : ((intsteps - 1 - 1 - k + 1 : ℕ) : ℚ) + 1 + (k : ℚ) = (intsteps : ℚ) := by
          exact_mod_cast this
        linarith
      rw [hc]
      push_cast
      field_simp
      ring

/-- C5 (evaluation at the failing input).  With `AccFromZI = [0, 100, 200, ..]` and 2 substeps the
entries for the code pairs `(0, 1)` and `(1, 0)` at slot 0 are `0`, the `calloc` value: the
interpolation loop starts at `zN0 = 1` and never stores into row 0 or column 0.  Linear
interpolation between `AccFromZI[0] = 0` and `AccFromZI[1] = 100` at substep 1 of 2 is `50`. -/
theorem accAverLUT_code_zero_not_interpolated :
    exAccFromZI 0 = 0 ∧ exAccFromZI 1 = 100 ∧
    buildAccAverLUT exAccFromZI 3 2 (0, 1, 0) = 0 ∧
    buildAccAverLUT exAccFromZI 3 2 (1, 0, 0) = 0 ∧
    truncZ ((exAccFromZI 0 : ℚ) +
      ((exAccFromZI 1 - exAccFromZI 0 : ℤ) : ℚ) * ((0 : ℚ) + 1) / (2 : ℚ)) = 50 ∧
    truncZ ((exAccFromZI 1 : ℚ) +
      ((exAccFromZI 0 - exAccFromZI 1 : ℤ) : ℚ) * ((0 : ℚ) + 1) / (2 : ℚ)) = 50 := by
  decide!

/-! ## Trajectory tables -/

theorem forRange_two {σ : Type} (f : σ → ℕ → σ) (s : σ) : forRange 2 f s = f (f s 0) 1 := by
  rw [forRange_succ, forRange_succ, forRange_zero]

theorem trajDirStep_inv (xsize ysize intlen : ℕ) (Mo : ℕ → ℚ) (T0 : ℕ × ℕ × ℕ → ℤ)
    (X Y iI : ℕ) (s : PixState) (hi : iI < intlen)
    (h : PixInv xsize ysize intlen Mo T0 X Y iI s) :
    PixInv xsize ysize intlen Mo T0 X Y (iI + 1)
      (forRange 2 (trajDirStep xsize ysize intlen Mo X Y iI) s) := by
  obtain ⟨hd, ht, hf⟩ := h
  obtain ⟨hx0, hy0⟩ := hd 0 (by decide)
  obtain ⟨hx1, hy1⟩ := hd 1 (by decide)
  rw [forRange_two]
  refine ⟨?_, ?_, ?_⟩
  · intro tI htI
    interval_cases tI
    · simp [trajDirStep, trajDisp, dispNext, dirSign, hx0, hy0]
    · simp [trajDirStep, trajDisp, dispNext, dirSign, hx1, hy1]
  · intro tI k htI hk
    by_cases hki : k = iI
    · subst hki
      interval_cases tI
      · simp [trajDirStep, trajIdx, trajPos, trajSlot, dirSign, hx0, hy0]
      · simp [trajDirStep, trajIdx, trajPos, trajSlot, dirSign, hx1, hy1]
    · have hk' : k < iI := by omega
      have := ht tI k htI hk'
      rw [← this]
      interval_cases tI
      · have n1 : ((0 : ℕ), k, Y * xsize + X) ≠ (1, intlen - iI - 1, Y * xsize + X) := by
          simp
        have n2 : ((0 : ℕ), k, Y * xsize + X) ≠ (0, iI, Y * xsize + X) := by
          simp [hki]
        simp [trajDirStep, trajSlot, Function.update_noteq n1, Function.update_noteq n2]
      · have n1 : ((1 : ℕ), intlen - k - 1, Y * xsize + X) ≠
            (1, intlen - iI - 1, Y * xsize + X) := by
          simp only [ne_eq, Prod.mk.injEq, not_and]
          intro _ h2; omega
        have n2 : ((1 : ℕ), intlen - k - 1, Y * xsize + X) ≠ (0, iI, Y * xsize + X) := by
          simp
        simp [trajDirStep, trajSlot, Function.update_noteq n1, Function.update_noteq n2]
  · intro key hkey
    rw [← hf key hkey]
    have n1 : key ≠ (1, intlen - iI - 1, Y * xsize + X) := by
      intro e; rw [e] at hkey; exact hkey rfl
    have n2 : key ≠ (0, iI, Y * xsize + X) := by
      intro e; rw [e] at hkey; exact hkey rfl
    simp [trajDirStep, Function.update_noteq n1, Function.update_noteq n2]

/-- What the integration loop of destination pixel `(X, Y)` stores: the source index of
integration substep `k` at slot `trajSlot intlen tI k`, nothing for other pixels. -/
theorem trajPixel_spec (xsize ysize intlen : ℕ) (Mo : ℕ → ℚ) (T0 : ℕ × ℕ × ℕ → ℤ)
    (X Y : ℕ) :
    (∀ tI k, tI < 2 → k < intlen →
      trajPixel xsize ysize intlen Mo T0 X Y (tI, trajSlot intlen tI k, Y * xsize + X) =
        trajIdx xsize ysize Mo X Y tI k) ∧
    (∀ key : ℕ × ℕ × ℕ, key.2.2 ≠ Y * xsize + X →
      trajPixel xsize ysize intlen Mo T0 X Y key = T0 key) := by
  have h := forRange_inv (PixInv xsize ysize intlen Mo T0 X Y) intlen
    (fun s iI => forRange 2 (trajDirStep xsize ysize intlen Mo X Y iI) s)
    { dX := fun _ => Mo (Y * xsize + X), dY := fun _ => Mo (Y * xsize + X + xsize * ysize),
      trajecLUT := T0 }
    ⟨fun tI _ => ⟨rfl, rfl⟩, fun tI k _ hk => absurd hk (Nat.not_lt_zero k), fun _ _ => rfl⟩
    (fun iI t hi ht => trajDirStep_inv xsize ysize intlen Mo T0 X Y iI t hi ht)
  exact ⟨h.2.1, h.2.2⟩

theorem pixel_index_unique (xsize X Y X' Y' : ℕ) (hX : X < xsize) (hX' : X' < xsize)
    (h : Y' * xsize + X' = Y * xsize + X) : X' = X ∧ Y' = Y := by
  have hy : Y' = Y := by
    rcases Nat.lt_trichotomy Y' Y with l | e | l
    · have : (Y' + 1) * xsize ≤ Y * xsize := Nat.mul_le_mul_right _ l
      have e2 : (Y' + 1) * xsize = Y' * xsize + xsize := by ring
      omega
    · exact e
    · have : (Y + 1) * xsize ≤ Y' * xsize := Nat.mul_le_mul_right _ l
      have e2 : (Y + 1) * xsize = Y * xsize + xsize := by ring
      omega
  subst hy
  exact ⟨by omega, rfl⟩

theorem trajPixel_inv (xsize ysize intlen : ℕ) (Mo : ℕ → ℚ) (T0 T : ℕ × ℕ × ℕ → ℤ)
    (X Y : ℕ) (hX : X < xsize)
    (h : TrajInv xsize ysize intlen Mo T0 (Y * xsize + X) T) :
    TrajInv xsize ysize intlen Mo T0 (Y * xsize + X + 1)
      (trajPixel xsize ysize intlen Mo T X Y) := by
  obtain ⟨ha, hb⟩ := h
  obtain ⟨pa, pb⟩ := trajPixel_spec xsize ysize intlen Mo T X Y
  constructor
  · intro X' Y' tI k hX' hY' hlt htI hk
    by_cases e : Y' * xsize + X' = Y * xsize + X
    · obtain ⟨rfl, rfl⟩ := pixel_index_unique xsize X Y X' Y' hX hX' e
      exact pa tI k htI hk
    · rw [pb _ (by simpa using e)]
      exact ha X' Y' tI k hX' hY' (by omega) htI hk
  · intro key hkey
    rw [pb key (by omega)]
    exact hb key (by omega)

/-- Every entry that `trajecLUT_thread` stores: at slot `trajSlot intlen tI k` of destination
pixel `(X, Y)` stands the source index of integration substep `k`, computed on the scaled
motion field. -/
theorem trajecLUT_entry (xsize ysize intsteps : ℕ) (s : TrajState) (X Y tI k : ℕ)
    (hX : X < xsize) (hY : Y < ysize) (htI : tI < 2) (hk : k < intsteps - 1) :
    (trajecLUT_thread xsize ysize intsteps s).trajecLUT
        (tI, trajSlot (intsteps - 1) tI k, Y * xsize + X) =
      trajIdx xsize ysize (scaledMotion xsize ysize intsteps s) X Y tI k := by
  have h := forPixels_inv
    (TrajInv xsize ysize (intsteps - 1) (scaledMotion xsize ysize intsteps s)
      (forPixels xsize ysize (oneStepPixel xsize ysize (1 / (intsteps : ℚ))) s).trajecLUT)
    xsize ysize
    (trajPixel xsize ysize (intsteps - 1) (scaledMotion xsize ysize intsteps s))
    (forPixels xsize ysize (oneStepPixel xsize ysize (1 / (intsteps : ℚ))) s).trajecLUT
    ⟨fun X Y tI k _ _ h => absurd h (Nat.not_lt_zero _), fun _ _ => rfl⟩
    (fun X Y t hX _ ht => trajPixel_inv xsize ysize (intsteps - 1) _ _ t X Y hX ht)
  have hN : Y * xsize + X < ysize * xsize := by
    have h1 : (Y + 1) * xsize ≤ ysize * xsize := Nat.mul_le_mul_right _ hY
    have h2 : (Y + 1) * xsize = Y * xsize + xsize := by ring
    omega
  exact h.1 X Y tI k hX hY hN htI hk

theorem truncZ_mono {q r : ℚ} (h : q ≤ r) : truncZ q ≤ truncZ r := by
  unfold truncZ
  split_ifs with hq hr hr
  · exact Int.floor_mono h
  · exact absurd (le_trans hq h) hr
  · have h1 : ⌈q⌉ ≤ 0 := Int.ceil_le.mpr (by push_cast; linarith)
    have h2 : (0 : ℤ) ≤ ⌊r⌋ := Int.floor_nonneg.mpr hr
    omega
  · exact Int.ceil_mono h

theorem srcIndex_range (xsize ysize : ℕ) (iX iY : ℤ) :
    srcIndex xsize ysize iX iY = -1 ∨
      (0 ≤ srcIndex xsize ysize iX iY ∧ srcIndex xsize ysize iX iY < (xsize * ysize : ℕ)) := by
  unfold srcIndex
  by_cases h : offGrid xsize ysize iX iY
  · left; rw [if_pos h]
  · right
    rw [if_neg h]
    unfold offGrid at h
    push_neg at h
    obtain ⟨h1, h2, h3, h4⟩ := h
    constructor
    · positivity
    · push_cast
      have : iY + 1 ≤ (ysize : ℤ) := by omega
      have hx : (0 : ℤ) ≤ (xsize : ℤ) := by positivity
      nlinarith

theorem srcIndex_offGrid (xsize ysize : ℕ) (iX iY : ℤ) (h : offGrid xsize ysize iX iY) :
    srcIndex xsize ysize iX iY = -1 := by
  unfold srcIndex; rw [if_pos h]

/-- Every entry that `trajecLUT_thread` stores is `-1` or an index in `[0, pixelCount)`, and
it is `-1` whenever the position, truncated toward zero, is a pixel outside the area. -/
theorem trajecLUT_entry_range (xsize ysize intsteps : ℕ) (s : TrajState) (X Y tI k : ℕ)
    (hX : X < xsize) (hY : Y < ysize) (htI : tI < 2) (hk : k < intsteps - 1) :
    ((trajecLUT_thread xsize ysize intsteps s).trajecLUT
        (tI, trajSlot (intsteps - 1) tI k, Y * xsize + X) = -1 ∨
      (0 ≤ (trajecLUT_thread xsize ysize intsteps s).trajecLUT
          (tI, trajSlot (intsteps - 1) tI k, Y * xsize + X) ∧
        (trajecLUT_thread xsize ysize intsteps s).trajecLUT
          (tI, trajSlot (intsteps - 1) tI k, Y * xsize + X) < (xsize * ysize : ℕ))) ∧
    (offGrid xsize ysize
        (truncZ (trajPos xsize ysize (scaledMotion xsize ysize intsteps s) X Y tI k).1)
        (truncZ (trajPos xsize ysize (scaledMotion xsize ysize intsteps s) X Y tI k).2) →
      (trajecLUT_thread xsize ysize intsteps s).trajecLUT
        (tI, trajSlot (intsteps - 1) tI k, Y * xsize + X) = -1) := by
  rw [trajecLUT_entry xsize ysize intsteps s X Y tI k hX hY htI hk]
  exact ⟨srcIndex_range _ _ _ _, srcIndex_offGrid _ _ _ _⟩

/-- C6 (evaluation at the failing input).  On the 2x1 grid with 2 substeps and `dx = 3/2` at pixel 0,
the `PAST` position of pixel 0 at substep 0 is `(-1/4, 1/2)`, left of the grid bounds
`[0,2) x [0,1)`; the cast truncates `-1/4` to pixel column 0 and the table entry is the
index `0`, not `-1`. -/
theorem position_left_of_grid_gets_index :
    trajPos 2 1 (scaledMotion 2 1 2 (trajInit exMotionEdge)) 0 0 0 0 = (-1 / 4, 1 / 2) ∧
    (trajecLUT_thread 2 1 2 (trajInit exMotionEdge)).trajecLUT (0, trajSlot 1 0 0, 0) = 0 := by
  decide!

/-- A trajectory that is off the grid at integration substep 0 has left it for good: the
displacement at substep 0 is the pixel's own vector. -/
theorem leavesForGood_of_offGrid_zero (xsize ysize : ℕ) (Mo : ℕ → ℚ) (X Y tI : ℕ)
    (hX : X < xsize) (hY : Y < ysize)
    (h : offGrid xsize ysize (truncZ (trajPos xsize ysize Mo X Y tI 0).1)
      (truncZ (trajPos xsize ysize Mo X Y tI 0).2)) :
    LeavesForGood xsize ysize Mo X Y tI 0 := by
  have tr0 : ∀ n : ℕ, truncZ ((n : ℚ) + 1 / 2) = n := by
    intro n
    unfold truncZ
    rw [if_pos (by positivity)]
    rw [Int.floor_eq_iff]
    constructor <;> push_cast <;> linarith
  have hXq : truncZ ((X : ℚ) + 1 / 2) = X := tr0 X
  have hYq : truncZ ((Y : ℚ) + 1 / 2) = Y := tr0 Y
  unfold LeavesForGood
  unfold offGrid at h
  simp only [trajPos, trajDisp] at h ⊢
  rcases h with h | h | h | h
  · left
    refine ⟨h, ?_⟩
    by_contra hc
    push_neg at hc
    have := truncZ_mono (show (X : ℚ) + 1 / 2 + dirSign tI * Mo (Y * xsize + X) ≤
      (X : ℚ) + 1 / 2 by linarith)
    rw [hXq] at this
    omega
  · right; left
    refine ⟨h, ?_⟩
    by_contra hc
    push_neg at hc
    have := truncZ_mono (show (X : ℚ) + 1 / 2 ≤
      (X : ℚ) + 1 / 2 + dirSign tI * Mo (Y * xsize + X) by linarith)
    rw [hXq] at this
    omega
  · right; right; left
    refine ⟨h, ?_⟩
    by_contra hc
    push_neg at hc
    have := truncZ_mono (show (Y : ℚ) + 1 / 2 +
      dirSign tI * Mo (Y * xsize + X + xsize * ysize) ≤ (Y : ℚ) + 1 / 2 by linarith)
    rw [hYq] at this
    omega
  · right; right; right
    refine ⟨h, ?_⟩
    by_contra hc
    push_neg at hc
    have := truncZ_mono (show (Y : ℚ) + 1 / 2 ≤
      (Y : ℚ) + 1 / 2 + dirSign tI * Mo (Y * xsize + X + xsize * ysize) by linarith)
    rw [hYq] at this
    omega

theorem meanMember_eq (c : EnsCfg) (Accdata : ℕ → ℕ → ℤ) (N : ℕ) (s : ℚ × ℚ) (mI : ℕ) :
    meanMember c Accdata N s mI =
      if takesPart c Accdata N mI = true
      then (fadd s.1 (memberTerm c Accdata N mI), fadd s.2 (memberWeight c mI)) else s := by
  unfold meanMember takesPart memberTerm memberWeight
  by_cases h : 0 ≤ Accdata mI N
  · have hq : (0 : ℚ) ≤ (Accdata mI N : ℚ) := by exact_mod_cast h
    by_cases hd : c.DETERM_ENSMEAN = true ∧ mI = 0
    · obtain ⟨he, rfl⟩ := hd
      by_cases hw : c.DETERM_W = true
      · simp [h, hq, he, hw]
      · simp [h, hq, he, hw]
    · have hb : (c.DETERM_ENSMEAN && decide (mI = 0)) = false := by
        rcases Bool.eq_false_or_eq_true c.DETERM_ENSMEAN with e | e
        · by_cases m0 : mI = 0
          · exact absurd ⟨e, m0⟩ hd
          · simp [m0]
        · simp [e]
      simp only [hq, h, hd, if_true, if_false, hb, decide_True, Bool.false_and, Bool.not_false,
        Bool.and_true]
  · have hq : ¬ (0 : ℚ) ≤ (Accdata mI N : ℚ) := by
      intro hc; exact h (by exact_mod_cast hc)
    simp [h, hq]

/-- The member loop computes the weighted sum and the weighted count of the members that take
part, in member order. -/
theorem meanSums_eq_doubleSums (c : EnsCfg) (Accdata : ℕ → ℕ → ℤ) (N : ℕ) :
    meanSums c Accdata N = doubleSums c Accdata N := by
  unfold meanSums doubleSums
  generalize c.members = n
  induction n with
  | zero => simp [forRange_zero]
  | succ n ih =>
    rw [forRange_succ, ih, meanMember_eq, List.range_succ, List.filter_append,
      List.foldl_append]
    by_cases ht : takesPart c Accdata N n = true
    · simp [ht]
    · simp [ht]

/-- With no active member the member loop leaves sum and count at zero. -/
theorem meanSums_no_active (c : EnsCfg) (Accdata : ℕ → ℕ → ℤ) (N : ℕ)
    (h : ∀ mI, mI < c.members → Accdata mI N < 0) :
    meanSums c Accdata N = (0, 0) := by
  rw [meanSums_eq_doubleSums]
  unfold doubleSums
  have : (List.range c.members).filter (takesPart c Accdata N) = [] := by
    rw [List.filter_eq_nil_iff]
    intro mI hm
    have := h mI (List.mem_range.mp hm)
    unfold takesPart
    simp
    intro hc
    omega
  rw [this]
  rfl

/-- What the pixel loop of the ensemble mean leaves in `MeanAccdata`. -/
theorem ensembleMean_entry (c : EnsCfg) (xsize ysize : ℕ) (Accdata : ℕ → ℕ → ℤ)
    (M : ℕ → ℕ) (N : ℕ) (hN : N < ysize * xsize) :
    ensembleMean c xsize ysize Accdata M N =
      meanValue c Accdata (256 * c.Ensmean_nodata + c.Ensmean_nodata) N := by
  unfold ensembleMean
  have h := forPixels_inv
    (fun n (T : ℕ → ℕ) => ∀ K, T K =
      if K < n then meanValue c Accdata (256 * c.Ensmean_nodata + c.Ensmean_nodata) K
      else if K < xsize * ysize then 256 * c.Ensmean_nodata + c.Ensmean_nodata else M K)
    xsize ysize (meanPixel c xsize Accdata)
    (fun K => if K < xsize * ysize then 256 * c.Ensmean_nodata + c.Ensmean_nodata else M K)
    (by intro K; simp) ?_
  · rw [h N, if_pos hN]
  · intro X Y T hX hY hT K
    have hlt : Y * xsize + X < xsize * ysize := by
      have h1 : (Y + 1) * xsize ≤ ysize * xsize := Nat.mul_le_mul_right _ hY
      have h2 : (Y + 1) * xsize = Y * xsize + xsize := by ring
      have h3 : ysize * xsize = xsize * ysize := Nat.mul_comm _ _
      omega
    by_cases hK : K = Y * xsize + X
    · subst hK
      have hT' := hT (Y * xsize + X)
      simp only [lt_irrefl, if_false, hlt, if_true] at hT'
      unfold meanPixel meanValue
      by_cases hc : 0 < (meanSums c Accdata (Y * xsize + X)).2
      · simp [hc]
      · simp [hc, hT']
    · have e : (K < Y * xsize + X + 1) ↔ (K < Y * xsize + X) := by omega
      unfold meanPixel
      by_cases hc : 0 < (meanSums c Accdata (Y * xsize + X)).2
      · simp only [hc, if_true, Function.update_noteq hK, hT K, e]
      · simp only [hc, if_false, hT K, e]

/-- C8 (counterexample).  Two members with accumulation 5000 each, the deterministic member with
the weight `0x1.5555555555556p-3` that the schedule gives at step 1 for initial weight 10
percent, span 150 percent and 4 steps: the weighted count is positive, the weighted sum
divided by the weighted count and scaled by 0.001 is 5, and `MeanAccdata` holds 4. -/
theorem ensemble_mean_below_exact_quotient :
    exRoundCfg.determ_w = 6004799503160662 / 2 ^ 55 ∧
    0 < claimWeightedCount exRoundCfg (fun _ _ => 5000) 0 ∧
    truncZ (1 / 1000 * claimWeightedSum exRoundCfg (fun _ _ => 5000) 0 /
      claimWeightedCount exRoundCfg (fun _ _ => 5000) 0) = 5 ∧
    ensembleMean exRoundCfg 1 1 (fun _ _ => 5000) (fun _ => 0) 0 = 4 := by
  decide!

/-- C8 (amended).  For every pixel of the grid whose weighted count is positive, the value stored
in `MeanAccdata` is the weighted sum of the non-nodata accumulations divided by the
weighted count, scaled by 0.001, as `double` arithmetic computes them: ordinary members
weigh 1, the deterministic member weighs `determ_w` while the flag `DETERM_W` is on and is
left out once it is off, sum and count are added up in member order, and every product,
sum and quotient is rounded to `double`.  The result is converted to `uint16_t`: below
`2^16` it is the truncation to an integer. -/
theorem ensemble_mean_is_double_quotient (c : EnsCfg) (xsize ysize : ℕ)
    (Accdata : ℕ → ℕ → ℤ) (M : ℕ → ℕ) (X Y : ℕ) (hX : X < xsize) (hY : Y < ysize)
    (hpos : 0 < (doubleSums c Accdata (Y * xsize + X)).2) :
    ensembleMean c xsize ysize Accdata M (Y * xsize + X) =
        toUInt16 (fdiv (fmul (fl (1 / 1000)) (doubleSums c Accdata (Y * xsize + X)).1)
          (doubleSums c Accdata (Y * xsize + X)).2) ∧
    (0 ≤ truncZ (fdiv (fmul (fl (1 / 1000)) (doubleSums c Accdata (Y * xsize + X)).1)
          (doubleSums c Accdata (Y * xsize + X)).2) →
      truncZ (fdiv (fmul (fl (1 / 1000)) (doubleSums c Accdata (Y * xsize + X)).1)
          (doubleSums c Accdata (Y * xsize + X)).2) < 65536 →
      (ensembleMean c xsize ysize Accdata M (Y * xsize + X) : ℤ) =
        truncZ (fdiv (fmul (fl (1 / 1000)) (doubleSums c Accdata (Y * xsize + X)).1)
          (doubleSums c Accdata (Y * xsize + X)).2)) := by
  have hN : Y * xsize + X < ysize * xsize := by
    have h1 : (Y + 1) * xsize ≤ ysize * xsize := Nat.mul_le_mul_right _ hY
    have h2 : (Y + 1) * xsize = Y * xsize + xsize := by ring
    omega
  have e : ensembleMean c xsize ysize Accdata M (Y * xsize + X) =
      toUInt16 (fdiv (fmul (fl (1 / 1000)) (doubleSums c Accdata (Y * xsize + X)).1)
        (doubleSums c Accdata (Y * xsize + X)).2) := by
    rw [ensembleMean_entry c xsize ysize Accdata M _ hN]
    unfold meanValue
    rw [meanSums_eq_doubleSums]
    simp only [hpos, if_true]
  refine ⟨e, ?_⟩
  intro h0 h1
  rw [e]
  unfold toUInt16
  rw [Int.emod_eq_of_lt h0 h1]
  exact Int.toNat_of_nonneg h0

theorem ensemble_mean_is_double_quotient_witness :
    (doubleSums exEnsCfg exEnsAcc (0 * 1 + 0)) = (1200000, 3) ∧
    ensembleMean exEnsCfg 1 1 exEnsAcc (fun _ => 0) (0 * 1 + 0) = 400 ∧
    ensembleMean exEnsCfg 1 1 exEnsAcc (fun _ => 0) (0 * 1 + 0) =
      toUInt16 (fdiv (fmul (fl (1 / 1000)) (doubleSums exEnsCfg exEnsAcc (0 * 1 + 0)).1)
        (doubleSums exEnsCfg exEnsAcc (0 * 1 + 0)).2) :=
  ⟨by decide!, by decide!,
    (ensemble_mean_is_double_quotient exEnsCfg 1 1 exEnsAcc (fun _ => 0) 0 0
      (by decide) (by decide) (by decide!)).1⟩

/-- C9 (counterexample).  Under `INTERP_IGNORE_NODATA=TRUE` (`Ensmean_nodata = 0`) a pixel
whose only member is nodata (`-1`) gets the ensemble-mean value `0`. -/
theorem no_active_member_gives_zero_when_nodata_ignored :
    (∀ mI, mI < exIgnoreCfg.members → (fun _ _ => (-1 : ℤ)) mI 0 < 0) ∧
    ensembleMean exIgnoreCfg 1 1 (fun _ _ => -1) (fun _ => 0) 0 = 0 := by
  decide!

/-- C9 (amended).  At every pixel of the grid at which every member's accumulation is negative,
the ensemble-mean value is the `memset` fill, both bytes equal to `Ensmean_nodata`: the
sentinel `65535` in the default configuration (`Ensmean_nodata = 255`), and `0` under
`INTERP_IGNORE_NODATA=TRUE` (`Ensmean_nodata = 0`). -/
theorem no_active_member_gives_fill (c : EnsCfg) (xsize ysize : ℕ)
    (Accdata : ℕ → ℕ → ℤ) (M : ℕ → ℕ) (X Y : ℕ) (hX : X < xsize) (hY : Y < ysize)
    (h : ∀ mI, mI < c.members → Accdata mI (Y * xsize + X) < 0) :
    ensembleMean c xsize ysize Accdata M (Y * xsize + X) =
        256 * c.Ensmean_nodata + c.Ensmean_nodata ∧
    (c.Ensmean_nodata = 255 → ensembleMean c xsize ysize Accdata M (Y * xsize + X) = 65535) ∧
    (c.Ensmean_nodata = 0 → ensembleMean c xsize ysize Accdata M (Y * xsize + X) = 0) := by
  have hN : Y * xsize + X < ysize * xsize := by
    have h1 : (Y + 1) * xsize ≤ ysize * xsize := Nat.mul_le_mul_right _ hY
    have h2 : (Y + 1) * xsize = Y * xsize + xsize := by ring
    omega
  have e : ensembleMean c xsize ysize Accdata M (Y * xsize + X) =
      256 * c.Ensmean_nodata + c.Ensmean_nodata := by
    rw [ensembleMean_entry c xsize ysize Accdata M _ hN]
    unfold meanValue
    rw [meanSums_no_active c Accdata _ h]
    simp
  refine ⟨e, ?_, ?_⟩
  · intro hb; rw [e, hb]
  · intro hb; rw [e, hb]

theorem no_active_member_gives_fill_witness :
    ensembleMean exEnsCfg 1 1 (fun _ _ => -1) (fun _ => 0) (0 * 1 + 0) = 65535 :=
  (no_active_member_gives_fill exEnsCfg 1 1 (fun _ _ => -1) (fun _ => 0) 0 0
    (by decide) (by decide) (by decide)).2.1 rfl

theorem determAt_succ (en : Bool) (startw lapse : ℚ) (t : ℕ) :
    determAt en startw lapse (t + 1) =
      determStep en startw lapse (determAt en startw lapse t) (t + 1) := by
  unfold determAt
  rw [forRange_succ]

/-- Once a step has had a negative weight the flag `DETERM_W` is off at every later step. -/
theorem determAt_flag_off (startw lapse : ℚ) (t0 t : ℕ) (ht : t0 ≤ t)
    (hneg : startw - lapse * (t0 : ℚ) < 0) :
    (determAt true startw lapse t).DETERM_W = false := by
  induction t with
  | zero =>
    have : t0 = 0 := by omega
    subst this
    simp only [determAt, forRange_succ, forRange_zero, determStep, if_true]
    simp only [Nat.cast_zero] at hneg ⊢
    rw [if_pos hneg]
  | succ t ih =>
    rw [determAt_succ]
    simp only [determStep, if_true]
    by_cases e : t0 = t + 1
    · subst e
      rw [if_pos hneg]
    · have := ih (by omega)
      rw [this]
      split_ifs <;> rfl

/-- C10.  Under deterministic weighting, once the weight `determ_startw - determ_lapse*t0` of a
step `t0` is negative, at that step and at every later step `t` the deterministic member
(member 0) adds nothing to `MeanAccsum` and nothing to `MeanCount`, at every pixel. -/
theorem deterministic_member_excluded_after_underflow (members Ensmean_nodata : ℕ)
    (determ_startw determ_lapse : ℚ) (t0 t : ℕ) (ht : t0 ≤ t)
    (hneg : determ_startw - determ_lapse * (t0 : ℚ) < 0)
    (Accdata : ℕ → ℕ → ℤ) (N : ℕ) (s : ℚ × ℚ) :
    meanMember (ensCfgAt members true determ_startw determ_lapse Ensmean_nodata t)
      Accdata N s 0 = s := by
  have hf := determAt_flag_off determ_startw determ_lapse t0 t ht hneg
  unfold meanMember ensCfgAt
  simp [hf]

theorem deterministic_member_excluded_after_underflow_witness :
    (2 : ℚ) - 1 * ((3 : ℕ) : ℚ) < 0 ∧
    meanMember (ensCfgAt 3 true 2 1 255 4) exEnsAcc 0 (0, 0) 0 = (0, 0) :=
  ⟨by norm_num, deterministic_member_excluded_after_underflow 3 255 2 1 3 4 (by decide)
    (by norm_num) exEnsAcc 0 (0, 0)⟩

/-! ## Rounding to `double` -/

theorem pixel_lt_fieldsize (xsize ysize X Y : ℕ) (hX : X < xsize) (hY : Y < ysize) :
    Y * xsize + X < xsize * ysize := by
  have h1 : (Y + 1) * xsize ≤ ysize * xsize := Nat.mul_le_mul_right _ hY
  have h2 : (Y + 1) * xsize = Y * xsize + xsize := by ring
  have h3 : ysize * xsize = xsize * ysize := Nat.mul_comm _ _
  omega

theorem oneStepPixel_inv (xsize ysize : ℕ) (v : ℚ) (s0 s : TrajState) (X Y : ℕ)
    (hX : X < xsize) (hY : Y < ysize)
    (h : OneStepInv xsize ysize v s0 (Y * xsize + X) s) :
    OneStepInv xsize ysize v s0 (Y * xsize + X + 1) (oneStepPixel xsize ysize v s X Y) := by
  obtain ⟨hm, ho, hf, ht⟩ := h
  have hN := pixel_lt_fieldsize xsize ysize X Y hX hY
  have m1 : s.MoData (Y * xsize + X) = s0.MoData (Y * xsize + X) := by
    rw [hm, if_neg (by omega)]
  have m2 : s.MoData (Y * xsize + X + xsize * ysize) =
      s0.MoData (Y * xsize + X + xsize * ysize) := by
    rw [hm, if_neg (by omega)]
  have hne : Y * xsize + X + xsize * ysize ≠ Y * xsize + X := by omega
  refine ⟨?_, ?_, ?_, ?_⟩
  · intro M
    show Function.update (Function.update s.MoData (Y * xsize + X)
        (s.MoData (Y * xsize + X) * v)) (Y * xsize + X + xsize * ysize)
        (Function.update s.MoData (Y * xsize + X) (s.MoData (Y * xsize + X) * v)
          (Y * xsize + X + xsize * ysize) * v) M = _
    rw [Function.update_noteq hne]
    by_cases e2 : M = Y * xsize + X + xsize * ysize
    · subst e2
      rw [Function.update_same, m2, if_pos (by omega)]
    · rw [Function.update_noteq e2]
      by_cases e1 : M = Y * xsize + X
      · subst e1
        rw [Function.update_same, m1, if_pos (by omega)]
      · rw [Function.update_noteq e1, hm]
        by_cases c : M < Y * xsize + X ∨
            (xsize * ysize ≤ M ∧ M < xsize * ysize + (Y * xsize + X))
        · rw [if_pos c, if_pos (by omega)]
        · rw [if_neg c, if_neg (by omega)]
  · intro X' Y' hX' hY' hlt
    show Function.update s.OneStepMotion (Y * xsize + X) _ (Y' * xsize + X') = _
    by_cases e : Y' * xsize + X' = Y * xsize + X
    · obtain ⟨rfl, rfl⟩ := pixel_index_unique xsize X Y X' Y' hX hX' e
      rw [Function.update_same, m1, m2]
      rfl
    · rw [Function.update_noteq e]
      exact ho X' Y' hX' hY' (by omega)
  · intro M hM
    show Function.update s.OneStepMotion (Y * xsize + X) _ M = _
    rw [Function.update_noteq (by omega)]
    exact hf M (by omega)
  · exact ht

/-- What the first pixel loop of `trajecLUT_thread` leaves in the buffers. -/
theorem oneStepLoop_result (xsize ysize : ℕ) (v : ℚ) (s : TrajState) :
    OneStepInv xsize ysize v s (ysize * xsize)
      (forPixels xsize ysize (oneStepPixel xsize ysize v) s) := by
  refine forPixels_inv (OneStepInv xsize ysize v s) xsize ysize _ s ?_ ?_
  · refine ⟨fun M => ?_, fun X Y _ _ h => absurd h (Nat.not_lt_zero _), fun _ _ => rfl, rfl⟩
    rw [if_neg (by omega)]
  · intro X Y t hX hY h
    exact oneStepPixel_inv xsize ysize v s t X Y hX hY h

/-- The motion buffer after `trajecLUT_thread`: both planes scaled by `1/intsteps`. -/
theorem scaledMotion_eq (xsize ysize intsteps : ℕ) (s : TrajState) (M : ℕ) :
    scaledMotion xsize ysize intsteps s M =
      if M < 2 * (xsize * ysize) then s.MoData M * (1 / (intsteps : ℚ)) else s.MoData M := by
  unfold scaledMotion
  rw [(oneStepLoop_result xsize ysize _ s).1 M]
  have e : ysize * xsize = xsize * ysize := Nat.mul_comm _ _
  by_cases c : M < 2 * (xsize * ysize)
  · rw [if_pos c, if_pos (by omega)]
  · rw [if_neg c, if_neg (by omega)]

/-- The one-step motion index that `trajecLUT_thread` stores for pixel `(X, Y)`. -/
theorem oneStepMotion_entry (xsize ysize intsteps : ℕ) (s : TrajState) (X Y : ℕ)
    (hX : X < xsize) (hY : Y < ysize) :
    (trajecLUT_thread xsize ysize intsteps s).OneStepMotion (Y * xsize + X) =
      oneStepIdx xsize ysize s.MoData X Y := by
  have h := (oneStepLoop_result xsize ysize (1 / (intsteps : ℚ)) s).2.1 X Y hX hY
    (by have := pixel_lt_fieldsize xsize ysize X Y hX hY
        have e : ysize * xsize = xsize * ysize := Nat.mul_comm _ _
        omega)
  exact h

/-- The one-step motion index is `-1` or an index of the grid. -/
theorem oneStepMotion_range (xsize ysize intsteps : ℕ) (s : TrajState) (X Y : ℕ)
    (hX : X < xsize) (hY : Y < ysize) :
    (trajecLUT_thread xsize ysize intsteps s).OneStepMotion (Y * xsize + X) = -1 ∨
      0 ≤ (trajecLUT_thread xsize ysize intsteps s).OneStepMotion (Y * xsize + X) := by
  rw [oneStepMotion_entry xsize ysize intsteps s X Y hX hY]
  unfold oneStepIdx
  rcases srcIndex_range xsize ysize
    (truncZ ((X : ℚ) + 1 / 2 - s.MoData (Y * xsize + X)))
    (truncZ ((Y : ℚ) + 1 / 2 - s.MoData (Y * xsize + X + xsize * ysize))) with h | h
  · exact Or.inl h
  · exact Or.inr h.1

/-! ## Nodata advection -/

/-- C12.  When the sweep of `interpolation_thread` ends, the future field holds at every pixel
`N` of the grid the nodata code if the one-step motion index of `N` is `-1` or the past
field holds the nodata code at that one-step source pixel, and the code it held before the
sweep otherwise; after the buffer swap of the main loop this field is the past field of
the next step. -/
theorem nodata_mask_advected (e : SweepEnv) (s0 : SweepState) (X Y : ℕ)
    (hX : X < e.xsize) (hY : Y < e.ysize)
    (hidx : e.OneStepMotion (Y * e.xsize + X) = -1 ∨ 0 ≤ e.OneStepMotion (Y * e.xsize + X))
    (tI : ℕ) (pastZIarr : ℕ → ℕ) :
    (interpolation_thread e s0).futuZI (Y * e.xsize + X) =
      (if e.OneStepMotion (Y * e.xsize + X) = -1 ∨
          e.pastZI (e.OneStepMotion (Y * e.xsize + X)).toNat = e.newNodata
        then e.newNodata else s0.futuZI (Y * e.xsize + X)) ∧
    (swapFields tI pastZIarr
        { pastZIarrPtr := e.pastZI,
          futuZIarrPtr := (interpolation_thread e s0).futuZI }).pastZIarrPtr
        (Y * e.xsize + X) =
      (if e.OneStepMotion (Y * e.xsize + X) = -1 ∨
          e.pastZI (e.OneStepMotion (Y * e.xsize + X)).toNat = e.newNodata
        then e.newNodata else s0.futuZI (Y * e.xsize + X)) := by
  have hN : Y * e.xsize + X < e.ysize * e.xsize := by
    have := pixel_lt_fieldsize e.xsize e.ysize X Y hX hY
    have e2 : e.ysize * e.xsize = e.xsize * e.ysize := Nat.mul_comm _ _
    omega
  have key : (interpolation_thread e s0).futuZI (Y * e.xsize + X) =
      (if e.OneStepMotion (Y * e.xsize + X) = -1 ∨
          e.pastZI (e.OneStepMotion (Y * e.xsize + X)).toNat = e.newNodata
        then e.newNodata else s0.futuZI (Y * e.xsize + X)) := by
    rw [(sweep_result e s0).1]
    unfold futuSeen advectsNodata
    have hiff : (e.OneStepMotion (Y * e.xsize + X) < 0) ↔
        (e.OneStepMotion (Y * e.xsize + X) = -1) := by
      constructor
      · intro h; rcases hidx with h1 | h1
        · exact h1
        · omega
      · intro h; omega
    simp only [hN, true_and, hiff]
  exact ⟨key, key⟩

theorem nodata_mask_advected_witness :
    (interpolation_thread exEnvRight exState0).futuZI (0 * exEnvRight.xsize + 0) = 4 :=
  (nodata_mask_advected exEnvRight exState0 0 0 (by decide) (by decide)
    (Or.inl (by decide!)) 0 (fun _ => 0)).1.trans (by decide!)

/-! ## The single-substep accumulation table -/

/-- Every entry of `AccFromZI` in closed form. -/
theorem buildAccFromZI_entry (IR : ℕ → ℤ) (maxN z : ℕ) :
    buildAccFromZI IR maxN z =
      if z = maxN then -1 else if 1 ≤ z ∧ z < maxN + 1 + 1 then IR z else 0 := by
  unfold buildAccFromZI
  have h := forRange_inv
    (fun n (A : ℕ → ℤ) => ∀ y, A y = if 1 ≤ y ∧ y < n then IR y else 0)
    (maxN + 1 + 1)
    (fun (A : ℕ → ℤ) zN0 => if zN0 ≠ 0 then Function.update A zN0 (IR zN0) else A)
    (fun _ => 0) (by intro y; simp) ?_
  · by_cases e : z = maxN
    · subst e; simp
    · simp only [Function.update_noteq e, e, if_false]
      exact h z
  · intro i A _ hA y
    by_cases hi : i = 0
    · subst hi
      simp only [ne_eq, not_true_eq_false, if_false, hA y]
      rw [if_neg (by omega), if_neg (by omega)]
    · simp only [ne_eq, hi, not_false_eq_true, if_true]
      by_cases hy : y = i
      · subst hy
        rw [Function.update_same, if_pos (by omega)]
      · rw [Function.update_noteq hy, hA y]
        by_cases c : 1 ≤ y ∧ y < i
        · rw [if_pos c, if_pos (by omega)]
        · rw [if_neg c, if_neg (by omega)]

/-- Below the top code the table is non-negative and non-decreasing, with `AccFromZI[0] = 0`,
when the rain-rate accumulations are. -/
theorem accFromZI_monotone_below_top (IR : ℕ → ℤ) (maxN c c' : ℕ)
    (hIR0 : ∀ z, 0 ≤ IR z) (hIRm : ∀ z z', z ≤ z' → IR z ≤ IR z')
    (hcc : c ≤ c') (hc' : c' < maxN) :
    buildAccFromZI IR maxN 0 = 0 ∧ 0 ≤ buildAccFromZI IR maxN c ∧
      buildAccFromZI IR maxN c ≤ buildAccFromZI IR maxN c' := by
  have ent : ∀ z, z < maxN →
      buildAccFromZI IR maxN z = if 1 ≤ z then IR z else 0 := by
    intro z hz
    rw [buildAccFromZI_entry, if_neg (by omega)]
    by_cases h : 1 ≤ z
    · rw [if_pos ⟨h, by omega⟩, if_pos h]
    · rw [if_neg (fun hc => h hc.1), if_neg h]
  have nn : ∀ z, z < maxN → 0 ≤ buildAccFromZI IR maxN z := by
    intro z hz
    rw [ent z hz]
    split_ifs
    · exact hIR0 z
    · exact le_refl _
  refine ⟨?_, nn c (by omega), ?_⟩
  · rw [ent 0 (by omega), if_neg (by omega)]
  · by_cases h1 : 1 ≤ c
    · rw [ent c (by omega), ent c' hc', if_pos h1, if_pos (by omega)]
      exact hIRm c c' hcc
    · rw [ent c (by omega), if_neg h1]
      exact nn c' hc'

/-- C13 (evaluation at the failing input).  With top code `maxN = 3` (nodata code 4) and the
non-negative, non-decreasing rain-rate accumulations `100*code`, the table is
`[0, 100, 200, -1, 400]`: the store `AccFromZI[maxN] = -1` puts the nodata value on the top
non-sentinel code 3, so `AccFromZI[3] < 0` and `AccFromZI[2] > AccFromZI[3]`, while the
sentinel code 4 keeps a rain value. -/
theorem accFromZI_top_code_holds_nodata_value :
    (∀ z, 0 ≤ exIR z) ∧ (∀ z z', z ≤ z' → exIR z ≤ exIR z') ∧
    exAccFromZI 0 = 0 ∧ exAccFromZI 2 = 200 ∧ exAccFromZI 3 = -1 ∧ exAccFromZI 4 = 400 ∧
    ¬ (0 ≤ exAccFromZI 3) ∧ ¬ (exAccFromZI 2 ≤ exAccFromZI 3) := by
  refine ⟨?_, ?_, by decide!, by decide!, by decide!, by decide!, by decide!, by decide!⟩
  · intro z; unfold exIR; positivity
  · intro z z' h; unfold exIR
    have : (z : ℤ) ≤ (z' : ℤ) := by exact_mod_cast h
    omega

/-! ## Identity advection -/

theorem truncZ_nat_half (n : ℕ) : truncZ ((n : ℚ) + 1 / 2) = n := by
  unfold truncZ
  rw [if_pos (by positivity), Int.floor_eq_iff]
  constructor <;> push_cast <;> linarith

theorem srcIndex_inGrid (xsize ysize X Y : ℕ) (hX : X < xsize) (hY : Y < ysize) :
    srcIndex xsize ysize (X : ℤ) (Y : ℤ) = ((Y * xsize + X : ℕ) : ℤ) := by
  unfold srcIndex offGrid
  rw [if_neg (by omega)]
  push_cast
  ring

theorem trajDisp_zero (xsize ysize : ℕ) (Mo : ℕ → ℚ) (hMo : ∀ M, Mo M = 0)
    (X Y tI k : ℕ) : trajDisp xsize ysize Mo X Y tI k = (0, 0) := by
  induction k with
  | zero => simp [trajDisp, hMo]
  | succ k ih => simp [trajDisp, dispNext, ih, hMo]

/-- On a zero motion field every trajectory index is the destination pixel itself. -/
theorem trajIdx_zero (xsize ysize : ℕ) (Mo : ℕ → ℚ) (hMo : ∀ M, Mo M = 0)
    (X Y tI k : ℕ) (hX : X < xsize) (hY : Y < ysize) :
    trajIdx xsize ysize Mo X Y tI k = ((Y * xsize + X : ℕ) : ℤ) := by
  unfold trajIdx trajPos
  rw [trajDisp_zero xsize ysize Mo hMo]
  simp only [mul_zero, add_zero, truncZ_nat_half]
  exact srcIndex_inGrid xsize ysize X Y hX hY

theorem scaledMotion_zero (xsize ysize intsteps M : ℕ) :
    scaledMotion xsize ysize intsteps (trajInit exMotionZero) M = 0 := by
  rw [scaledMotion_eq]
  simp [trajInit, exMotionZero]

/-- Identity advection: with the zero motion field, 2 substeps, past and future fields
uniformly a code `c` below the top code `maxN` whose rain-rate accumulation is not
negative, and `Accdata` zero, every pixel of any grid ends at `2 * AccFromZI[c]`. -/
theorem identity_advection_below_top (xsize ysize : ℕ) (IR : ℕ → ℤ) (maxN c X Y : ℕ)
    (hX : X < xsize) (hY : Y < ysize) (hc : c < maxN) (hIR : 0 ≤ IR c) :
    (interpolation_thread (identityEnv xsize ysize IR maxN c) (identityState c)).Accdata
        (Y * xsize + X) = 2 * buildAccFromZI IR maxN c := by
  have hN : Y * xsize + X < ysize * xsize := by
    have := pixel_lt_fieldsize xsize ysize X Y hX hY
    have e2 : ysize * xsize = xsize * ysize := Nat.mul_comm _ _
    omega
  have hA : 0 ≤ buildAccFromZI IR maxN c := by
    rw [buildAccFromZI_entry, if_neg (by omega)]
    split_ifs
    · exact hIR
    · exact le_refl _
  have hP : (identityEnv xsize ysize IR maxN c).trajecLUT (0, 0, Y * xsize + X) =
      ((Y * xsize + X : ℕ) : ℤ) := by
    have h := trajecLUT_entry xsize ysize 2 (trajInit exMotionZero) X Y 0 0 hX hY
      (by decide) (by decide)
    rw [trajIdx_zero xsize ysize _ (scaledMotion_zero xsize ysize 2) X Y 0 0 hX hY] at h
    exact h
  have hF : (identityEnv xsize ysize IR maxN c).trajecLUT (1, 0, Y * xsize + X) =
      ((Y * xsize + X : ℕ) : ℤ) := by
    have h := trajecLUT_entry xsize ysize 2 (trajInit exMotionZero) X Y 1 0 hX hY
      (by decide) (by decide)
    rw [trajIdx_zero xsize ysize _ (scaledMotion_zero xsize ysize 2) X Y 1 0 hX hY] at h
    exact h
  have hL : buildAccAverLUT (buildAccFromZI IR maxN) maxN 2 (c, c, 0) =
      buildAccFromZI IR maxN c := by
    rw [buildAccAverLUT_entry]
    have hnd : nodataStores (2 - 1) (maxN + 1) (maxN + 1 + 1) c c 0 = none := by
      unfold nodataStores
      rw [if_neg (by omega)]
    rw [hnd]
    by_cases h1 : 1 ≤ c
    · have hin : interpStores (buildAccFromZI IR maxN) 2 (2 - 1) (maxN + 1 + 1) c c 0 =
          some (interpEntry (buildAccFromZI IR maxN) 2 (2 - 1) c c 0) := by
        unfold interpStores
        rw [if_pos (by omega)]
      rw [hin]
      simp [interpEntry]
    · have hin : interpStores (buildAccFromZI IR maxN) 2 (2 - 1) (maxN + 1 + 1) c c 0 =
          none := by
        unfold interpStores
        rw [if_neg (by omega)]
      have hc0 : c = 0 := by omega
      rw [hin, hc0, buildAccFromZI_entry, if_neg (by omega), if_neg (by omega)]
      rfl
  have h0 : ∀ f : ℕ → ℕ,
      substepAcc (identityEnv xsize ysize IR maxN c) f (Y * xsize + X) 0 =
        buildAccFromZI IR maxN c := by
    intro f
    have hnn : (0 : ℤ) ≤ ((Y * xsize + X : ℕ) : ℤ) := Int.natCast_nonneg _
    unfold substepAcc
    simp only [if_true, hnn, ne_eq, not_true_eq_false, if_false]
    rfl
  have h1 : ∀ f : ℕ → ℕ, f (Y * xsize + X) = c →
      substepAcc (identityEnv xsize ysize IR maxN c) f (Y * xsize + X) 1 =
        buildAccFromZI IR maxN c := by
    intro f hf
    unfold substepAcc
    simp only [Nat.sub_self, one_ne_zero, if_false, ne_eq, not_false_eq_true, if_true, hP, hF,
      Int.toNat_ofNat, Nat.cast_nonneg, hf]
    show buildAccAverLUT (buildAccFromZI IR maxN) maxN 2 (c, c, 0) = _
    exact hL
  have hseen : futuSeen (identityEnv xsize ysize IR maxN c) (identityState c).futuZI
      (Y * xsize + X) (Y * xsize + X) = c := by
    unfold futuSeen
    rw [if_neg (by omega)]
    rfl
  have hxs : (identityEnv xsize ysize IR maxN c).xsize = xsize := rfl
  have hys : (identityEnv xsize ysize IR maxN c).ysize = ysize := rfl
  have hr := (sweep_result (identityEnv xsize ysize IR maxN c) (identityState c)).2
    (Y * xsize + X)
  rw [hxs, hys, if_pos hN] at hr
  rw [hr, pixelAcc_valid]
  · show (0 : ℤ) + substepSum _ _ _ 2 = _
    simp only [substepSum, List.range_succ, List.range_zero, List.nil_append, List.map_append,
      List.map_cons, List.map_nil, List.sum_append, List.sum_cons, List.sum_nil, h0,
      h1 _ hseen]
    ring
  · intro iI hi
    have hi2 : iI < 2 := hi
    interval_cases iI
    · rw [h0]; exact hA
    · rw [h1 _ hseen]; exact hA

/-- C14 (evaluation at the failing input).  In the identity-advection scenario on the 4x4 grid
(zero motion, 2 substeps, top code `maxN = 3`, nodata code 4) with both fields uniformly
the non-nodata code 3, the accumulation of pixel 5 ends at `-1`, while
`2 * AccFromZI[3] = -2`: `AccFromZI[3]` holds the nodata value `-1`. -/
theorem identity_advection_top_code :
    (interpolation_thread (identityEnv 4 4 exIR 3 3) (identityState 3)).Accdata 5 = -1 ∧
    2 * buildAccFromZI exIR 3 3 = -2 ∧
    (identityEnv 4 4 exIR 3 3).trajecLUT (0, 0, 5) = 5 ∧
    (identityEnv 4 4 exIR 3 3).trajecLUT (1, 0, 5) = 5 := by
  decide!

/-! ## Rerunning the trajectory table builder -/

theorem sweepPixelSnapshot_Accdata (e : SweepEnv) (snap : ℕ → ℕ) (s : SweepState)
    (X Y : ℕ) :
    (sweepPixelSnapshot e snap s X Y).Accdata =
      Function.update s.Accdata (Y * e.xsize + X)
        (pixelAcc e snap (Y * e.xsize + X) e.intsteps (s.Accdata (Y * e.xsize + X))) := by
  show forRange e.intsteps (substepStore e snap (Y * e.xsize + X)) s.Accdata = _
  rw [substepLoop_eq]

/-- What the snapshot sweep leaves in `Accdata`. -/
theorem snapshot_result (e : SweepEnv) (s0 : SweepState) (M : ℕ) :
    (interpolation_snapshot e s0).Accdata M =
      if M < e.ysize * e.xsize then pixelAcc e s0.futuZI M e.intsteps (s0.Accdata M)
      else s0.Accdata M := by
  unfold interpolation_snapshot
  have h := forPixels_inv
    (fun n (s : SweepState) => ∀ K, s.Accdata K =
      if K < n then pixelAcc e s0.futuZI K e.intsteps (s0.Accdata K) else s0.Accdata K)
    e.xsize e.ysize (sweepPixelSnapshot e s0.futuZI) s0 (by intro K; simp) ?_
  · exact h M
  · intro X Y t _ _ ht K
    rw [sweepPixelSnapshot_Accdata]
    by_cases hK : K = Y * e.xsize + X
    · subst hK
      rw [Function.update_same, ht, if_neg (by omega), if_pos (by omega)]
    · rw [Function.update_noteq hK, ht]
      by_cases c : K < Y * e.xsize + X
      · rw [if_pos c, if_pos (by omega)]
      · rw [if_neg c, if_neg (by omega)]

theorem pixelAcc_congr (e : SweepEnv) (f g : ℕ → ℕ) (N n : ℕ) (a : ℤ)
    (h : ∀ iI, iI < n → substepAcc e f N iI = substepAcc e g N iI) :
    pixelAcc e f N n a = pixelAcc e g N n a := by
  induction n with
  | zero => rfl
  | succ n ih =>
    have ih2 := ih (fun i hi => h i (Nat.lt_succ_of_lt hi))
    unfold pixelAcc at ih2 ⊢
    rw [forRange_succ, forRange_succ, ih2, h n (Nat.lt_succ_self n)]

/-- C16 (counterexample).  On the 3x1 grid with 2 substeps, `dx = [10, -2, 0]` and both fields
uniformly code 1, the sweep marks pixel 0 of the future field as nodata (its one-step index
is `-1`) and then reads that mark at pixel 1, whose `FUTU` index is 0: `Accdata[1]` ends at
`-1`.  The sweep that reads a snapshot of the future field ends at `200` there. -/
theorem earlier_mark_changes_later_pixel :
    exEnvMixed.OneStepMotion 0 = -1 ∧ exEnvMixed.trajecLUT (1, 0, 1) = 0 ∧
    exState0.futuZI 0 = 1 ∧
    (interpolation_thread exEnvMixed exState0).Accdata 1 = -1 ∧
    (interpolation_snapshot exEnvMixed exState0).Accdata 1 = 200 := by
  decide!

/-- C16 (amended).  Within one sweep of `interpolation_thread` the accumulation of a pixel `N` of
the grid depends on the past field, on the future field as it stood when the sweep began
and on the nodata marks the sweep has written for the pixels visited before `N`: it equals
the result of a sweep reading a snapshot that carries those marks.  It equals the result of
the sweep reading the snapshot taken before the sweep whenever no `FUTU` trajectory index
of `N` points at a pixel visited before `N` that the sweep marks as nodata. -/
theorem sweep_reads_marks_of_earlier_pixels (e : SweepEnv) (s0 : SweepState) (X Y : ℕ)
    (hX : X < e.xsize) (hY : Y < e.ysize) :
    (interpolation_thread e s0).Accdata (Y * e.xsize + X) =
      (interpolation_snapshot e
        { Accdata := s0.Accdata,
          futuZI := futuSeen e s0.futuZI (Y * e.xsize + X) }).Accdata (Y * e.xsize + X) ∧
    ((∀ wI, wI < e.intsteps - 1 → 0 ≤ e.trajecLUT (1, wI, Y * e.xsize + X) →
        ¬ ((e.trajecLUT (1, wI, Y * e.xsize + X)).toNat < Y * e.xsize + X ∧
          advectsNodata e (e.trajecLUT (1, wI, Y * e.xsize + X)).toNat)) →
      (interpolation_thread e s0).Accdata (Y * e.xsize + X) =
        (interpolation_snapshot e s0).Accdata (Y * e.xsize + X)) := by
  have hN : Y * e.xsize + X < e.ysize * e.xsize := by
    have := pixel_lt_fieldsize e.xsize e.ysize X Y hX hY
    have e2 : e.ysize * e.xsize = e.xsize * e.ysize := Nat.mul_comm _ _
    omega
  have hr := (sweep_result e s0).2 (Y * e.xsize + X)
  rw [if_pos hN] at hr
  constructor
  · rw [hr, snapshot_result, if_pos hN]
  · intro hfree
    rw [hr, snapshot_result, if_pos hN]
    apply pixelAcc_congr
    intro iI hi
    unfold substepAcc
    by_cases h0 : iI = 0
    · subst h0; simp
    · simp only [h0, if_false, ne_eq, not_false_eq_true, if_true]
      by_cases hp : 0 ≤ e.trajecLUT (0, iI - 1, Y * e.xsize + X)
      · simp only [hp, if_true]
        by_cases hf : 0 ≤ e.trajecLUT (1, iI - 1, Y * e.xsize + X)
        · simp only [hf, if_true]
          have := hfree (iI - 1) (by omega) hf
          unfold futuSeen
          rw [if_neg this]
        · simp only [hf, if_false]
      · simp only [hp, if_false]

theorem sweep_reads_marks_of_earlier_pixels_witness :
    (interpolation_thread exEnvMixed exState0).Accdata (0 * exEnvMixed.xsize + 2) =
      (interpolation_snapshot exEnvMixed exState0).Accdata (0 * exEnvMixed.xsize + 2) :=
  (sweep_reads_marks_of_earlier_pixels exEnvMixed exState0 2 0 (by decide) (by decide)).2
    (by decide!)


end Fmippn
